import Mathlib

/-!
Verification of the durable job queue of this repository
(`src/jobs.py`, `src/worker.py`, `src/api_jobs.py`).

The store is modelled as a list of rows (`List Job`) in rowid (insertion)
order; each SQL statement of the source becomes a pure function on that
list.  Timestamps are integers (`time.time()` values enter the model as
explicit parameters), machine-generated uuids enter as explicit string
parameters, and the opaque payload/result/progress documents are JSON
values serialized at the store boundary, exactly as the source calls
`json.dumps` on write and `json.loads` on read.
-/

/-- Structured documents stored in `payload` / `result` / `progress`.
JSON values: null, booleans, numbers (modelled as exact integers — the
source never manipulates them, it only serializes and deserializes),
strings, arrays, and string-keyed objects. -/
inductive JVal where
  | jnull : JVal
  | jbool (b : Bool) : JVal
  | jnum (n : Int) : JVal
  | jstr (s : List Char) : JVal
  | jarr (xs : List JVal) : JVal
  | jobj (kvs : List (List Char × JVal)) : JVal

/-- The double-quote character, written numerically. -/
def qMark : Char := Char.ofNat 34

/-- The backslash character, written numerically. -/
def bSlash : Char := Char.ofNat 92

/-- The opening curly bracket, written numerically. -/
def lCurly : Char := Char.ofNat 123

/-- The closing curly bracket, written numerically. -/
def rCurly : Char := Char.ofNat 125

/-- One hexadecimal digit, lowercase, as emitted by `json.dumps` in
unicode escapes. -/
def hexDigitChar (d : Nat) : Char :=
  if d < 10 then Char.ofNat (48 + d) else Char.ofNat (87 + d)

/-- Four-digit lowercase hexadecimal rendering used in `\uXXXX` escapes. -/
def hex4 (n : Nat) : List Char :=
  [hexDigitChar (n / 4096 % 16), hexDigitChar (n / 256 % 16),
   hexDigitChar (n / 16 % 16), hexDigitChar (n % 16)]

/-- Models how `json.dumps` renders one character inside a string literal:
quote and backslash get a backslash escape, the usual control characters
get their short escapes, the remaining control characters get `\uXXXX`,
and every other character is emitted literally (as with
`ensure_ascii=False`; the ASCII-escaped alternative parses to the same
value, so the composition with the reader is unaffected). -/
def escapeChar (c : Char) : List Char :=
  if c = qMark then [bSlash, qMark]
  else if c = bSlash then [bSlash, bSlash]
  else if c.toNat = 8 then [bSlash, 'b']
  else if c.toNat = 9 then [bSlash, 't']
  else if c.toNat = 10 then [bSlash, 'n']
  else if c.toNat = 12 then [bSlash, 'f']
  else if c.toNat = 13 then [bSlash, 'r']
  else if c.toNat < 32 then bSlash :: 'u' :: hex4 c.toNat
  else [c]

/-- Escape every character of a string body. -/
def escapeStr : List Char → List Char
  | [] => []
  | c :: cs => escapeChar c ++ escapeStr cs

/-- Decimal rendering of a natural number, most significant digit first. -/
def natChars (n : Nat) : List Char :=
  if n = 0 then ['0']
  else (Nat.digits 10 n).reverse.map fun d => Char.ofNat (48 + d)

/-- Decimal rendering of an integer, with a leading minus sign when
negative, as `json.dumps` prints Python ints. -/
def intChars (n : Int) : List Char :=
  if n < 0 then '-' :: natChars n.natAbs else natChars n.natAbs

mutual

/-- Models `json.dumps` with its default separators: `", "` between
items and `": "` between a key and a value. -/
def dumpsV : JVal → List Char
  | .jnull => ['n', 'u', 'l', 'l']
  | .jbool true => ['t', 'r', 'u', 'e']
  | .jbool false => ['f', 'a', 'l', 's', 'e']
  | .jnum n => intChars n
  | .jstr s => qMark :: (escapeStr s ++ [qMark])
  | .jarr [] => ['[', ']']
  | .jarr (x :: xs) => '[' :: (dumpsV x ++ dumpsItems xs)
  | .jobj [] => [lCurly, rCurly]
  | .jobj (kv :: kvs) => lCurly :: (dumpsMember kv ++ dumpsMembers kvs)

/-- Renders the items after the first one, then the closing bracket. -/
def dumpsItems : List JVal → List Char
  | [] => [']']
  | x :: xs => ',' :: ' ' :: (dumpsV x ++ dumpsItems xs)

/-- Renders one `"key": value` member. -/
def dumpsMember : List Char × JVal → List Char
  | (k, v) => qMark :: (escapeStr k ++ (qMark :: ':' :: ' ' :: dumpsV v))

/-- Renders the members after the first one, then the closing bracket. -/
def dumpsMembers : List (List Char × JVal) → List Char
  | [] => [rCurly]
  | kv :: kvs => ',' :: ' ' :: (dumpsMember kv ++ dumpsMembers kvs)

end

/-- `json.dumps` at the `String` type. -/
def dumps (v : JVal) : String := String.mk (dumpsV v)

/-- JSON whitespace characters. -/
def isWsChar (c : Char) : Bool :=
  c.toNat = 32 || c.toNat = 9 || c.toNat = 10 || c.toNat = 13

/-- Skip leading whitespace. -/
def skipWs (cs : List Char) : List Char := cs.dropWhile isWsChar

/-- Decimal digit test on characters. -/
def isDigitChar (c : Char) : Bool := 48 ≤ c.toNat && c.toNat ≤ 57

/-- Numeric value of a decimal digit character. -/
def digitVal (c : Char) : Nat := c.toNat - 48

/-- Value of a most-significant-first digit string. -/
def digitsVal (ds : List Char) : Nat := ds.foldl (fun a c => 10 * a + digitVal c) 0

/-- Value of one hexadecimal digit character, if it is one. -/
def hexVal (c : Char) : Option Nat :=
  if 48 ≤ c.toNat ∧ c.toNat ≤ 57 then some (c.toNat - 48)
  else if 97 ≤ c.toNat ∧ c.toNat ≤ 102 then some (c.toNat - 87)
  else if 65 ≤ c.toNat ∧ c.toNat ≤ 70 then some (c.toNat - 55)
  else none

/-- Parse an unsigned decimal integer (one or more digits). -/
def parseNat (cs : List Char) : Option (Nat × List Char) :=
  let ds := cs.takeWhile isDigitChar
  if ds.isEmpty then none else some (digitsVal ds, cs.dropWhile isDigitChar)

/-- Parse the body of a string literal after the opening quote, up to and
including the closing quote, decoding the escapes the serializer emits
(plus `\/`, which JSON allows).  Fuel-indexed; one unit of fuel per
decoded character suffices. -/
def parseStrBody : Nat → List Char → Option (List Char × List Char)
  | 0, _ => none
  | _ + 1, [] => none
  | f + 1, c :: cs =>
    if c = qMark then some ([], cs)
    else if c = bSlash then
      match cs with
      | [] => none
      | e :: cs2 =>
        if e = qMark then (parseStrBody f cs2).map fun p => (qMark :: p.1, p.2)
        else if e = bSlash then (parseStrBody f cs2).map fun p => (bSlash :: p.1, p.2)
        else if e = '/' then (parseStrBody f cs2).map fun p => ('/' :: p.1, p.2)
        else if e = 'b' then (parseStrBody f cs2).map fun p => (Char.ofNat 8 :: p.1, p.2)
        else if e = 't' then (parseStrBody f cs2).map fun p => (Char.ofNat 9 :: p.1, p.2)
        else if e = 'n' then (parseStrBody f cs2).map fun p => (Char.ofNat 10 :: p.1, p.2)
        else if e = 'f' then (parseStrBody f cs2).map fun p => (Char.ofNat 12 :: p.1, p.2)
        else if e = 'r' then (parseStrBody f cs2).map fun p => (Char.ofNat 13 :: p.1, p.2)
        else if e = 'u' then
          match cs2 with
          | h1 :: h2 :: h3 :: h4 :: cs3 =>
            match hexVal h1, hexVal h2, hexVal h3, hexVal h4 with
            | some a, some b, some c2, some d =>
              (parseStrBody f cs3).map fun p =>
                (Char.ofNat (4096 * a + 256 * b + 16 * c2 + d) :: p.1, p.2)
            | _, _, _, _ => none
          | _ => none
        else none
    else (parseStrBody f cs).map fun p => (c :: p.1, p.2)

mutual

/-- Fuel-indexed recursive-descent parser modelling `json.loads` on the
serializer's output (whitespace is accepted exactly where the serializer
puts it). -/
def parseVal : Nat → List Char → Option (JVal × List Char)
  | 0, _ => none
  | f + 1, cs =>
    match skipWs cs with
    | [] => none
    | c :: rest =>
      if c = 'n' then
        match rest with
        | 'u' :: 'l' :: 'l' :: r => some (.jnull, r)
        | _ => none
      else if c = 't' then
        match rest with
        | 'r' :: 'u' :: 'e' :: r => some (.jbool true, r)
        | _ => none
      else if c = 'f' then
        match rest with
        | 'a' :: 'l' :: 's' :: 'e' :: r => some (.jbool false, r)
        | _ => none
      else if c = qMark then
        (parseStrBody f rest).map fun p => (.jstr p.1, p.2)
      else if c = '[' then
        match skipWs rest with
        | ']' :: r => some (.jarr [], r)
        | cs2 => (parseItems f cs2).map fun p => (.jarr p.1, p.2)
      else if c = lCurly then
        match skipWs rest with
        | [] => none
        | c2 :: r2 =>
          if c2 = rCurly then some (.jobj [], r2)
          else (parseMembers f (c2 :: r2)).map fun p => (.jobj p.1, p.2)
      else if c = '-' then
        (parseNat rest).map fun p => (.jnum (-(p.1 : Int)), p.2)
      else if isDigitChar c then
        (parseNat (c :: rest)).map fun p => (.jnum (p.1 : Int), p.2)
      else none

/-- Parse `value (, value)* ]` — the items of a non-empty array. -/
def parseItems : Nat → List Char → Option (List JVal × List Char)
  | 0, _ => none
  | f + 1, cs =>
    match parseVal f cs with
    | none => none
    | some (v, r) =>
      match skipWs r with
      | ',' :: r2 => (parseItems f r2).map fun p => (v :: p.1, p.2)
      | ']' :: r2 => some ([v], r2)
      | _ => none

/-- Parse `"key": value (, "key": value)* and closing bracket` — the
members of a non-empty object. -/
def parseMembers : Nat → List Char → Option (List (List Char × JVal) × List Char)
  | 0, _ => none
  | f + 1, cs =>
    match skipWs cs with
    | [] => none
    | c :: r =>
      if c = qMark then
        match parseStrBody f r with
        | none => none
        | some (k, r2) =>
          match skipWs r2 with
          | ':' :: r3 =>
            match parseVal f r3 with
            | none => none
            | some (v, r4) =>
              match skipWs r4 with
              | ',' :: r5 => (parseMembers f r5).map fun p => ((k, v) :: p.1, p.2)
              | c2 :: r5 => if c2 = rCurly then some ([(k, v)], r5) else none
              | [] => none
          | _ => none
      else none

end

/-- `json.loads`: parse a complete document; trailing non-whitespace is
rejected, as `json.loads` raises on extra data.  The fuel is an upper
bound on the recursion depth, sufficient for every document the
serializer produces (proved below). -/
def loads (s : String) : Option JVal :=
  match parseVal (2 * s.length + 1) s.toList with
  | some (v, rest) => if (skipWs rest).isEmpty then some v else none
  | none => none

/-- One row of the `jobs` table (schema in `init_db`, src/jobs.py).
`payload`, `result` and `progress` hold serialized text, as in the
database; timestamps are the explicit integer clock. -/
structure Job where
  id : String
  type : String
  status : String
  created_at : Int
  updated_at : Int
  started_at : Option Int
  finished_at : Option Int
  requested_by : Option String
  payload : String
  result : Option String
  error : Option String
  attempts : Int
  max_attempts : Int
  progress : Option String
  worker_id : Option String
deriving DecidableEq

/-- Shallow embedding of `enqueue_job` (src/jobs.py): INSERT a fresh row
with status `queued`, `created_at = updated_at = now`, the payload
serialized with `json.dumps`, and the column defaults `attempts = 0`,
`max_attempts` as supplied.  The generated uuid and the clock reading are
explicit parameters. -/
def enqueue_job (s : List Job) (job_id : String) (now : Int) (job_type : String)
    (payload : JVal) (requested_by : Option String) (max_attempts : Int) : List Job :=
  s ++ [{ id := job_id, type := job_type, status := "queued", created_at := now,
          updated_at := now, started_at := none, finished_at := none,
          requested_by := requested_by, payload := dumps payload, result := none,
          error := none, attempts := 0, max_attempts := max_attempts,
          progress := none, worker_id := none }]

/-- The dict `get_job` returns: the row with `payload`, `result` and
`progress` replaced by their parsed forms (the source parses each of the
three exactly when the stored text is truthy, i.e. non-empty). -/
structure JobView where
  id : String
  type : String
  status : String
  created_at : Int
  updated_at : Int
  started_at : Option Int
  finished_at : Option Int
  requested_by : Option String
  payload : Option JVal
  result : Option JVal
  error : Option String
  attempts : Int
  max_attempts : Int
  progress : Option JVal
  worker_id : Option String

/-- Decode an optional serialized column the way `get_job` does: parse
only when the stored value is truthy (non-null and non-empty). -/
def parseOptCol : Option String → Option JVal
  | none => none
  | some t => if t.isEmpty then none else loads t

/-- Shallow embedding of `get_job` (src/jobs.py): first row whose `id`
matches, with the three serialized columns decoded. -/
def get_job (s : List Job) (job_id : String) : Option JobView :=
  match s.find? fun j => j.id == job_id with
  | none => none
  | some j =>
    some { id := j.id, type := j.type, status := j.status,
           created_at := j.created_at, updated_at := j.updated_at,
           started_at := j.started_at, finished_at := j.finished_at,
           requested_by := j.requested_by,
           payload := if j.payload.isEmpty then none else loads j.payload,
           result := parseOptCol j.result, error := j.error,
           attempts := j.attempts, max_attempts := j.max_attempts,
           progress := parseOptCol j.progress, worker_id := j.worker_id }

/-- Step 1 of `claim_next_job` (src/jobs.py): `SELECT id FROM jobs WHERE
status = 'queued' ORDER BY created_at LIMIT 1`.  Ties on `created_at`
resolve to the earliest row, matching the `(status, created_at)` index
scan order (rowid order within equal keys). -/
def claim_select (s : List Job) : Option String :=
  match s.filter fun j => j.status == "queued" with
  | [] => none
  | j :: js =>
    some ((js.foldl (fun best x => if x.created_at < best.created_at then x else best) j).id)

/-- The SET clause of the conditional claim UPDATE. -/
def claim_row (j : Job) (worker_id : String) (now : Int) : Job :=
  { j with status := "running", started_at := some now,
           worker_id := some worker_id, updated_at := now }

/-- Step 2 of `claim_next_job`: `UPDATE jobs SET status='running',
started_at=?, worker_id=?, updated_at=? WHERE id = ? AND status =
'queued'`.  Returns the new table and the number of rows affected (which
the source never inspects). -/
def claim_update (s : List Job) (job_id worker_id : String) (now : Int) :
    List Job × Nat :=
  ((s.map fun j =>
      if j.id = job_id ∧ j.status = "queued" then claim_row j worker_id now else j),
   (s.filter fun j => j.id == job_id && j.status == "queued").length)

/-- `claim_next_job` with the select and the update evaluated against
possibly different table states: the SELECT and the UPDATE are separate
SQLite statements, so another process may commit between them;
`s_at_select` is the state the SELECT reads and `s_at_update` the state
the UPDATE hits.  Faithful to the source, the claimed id is re-fetched
and returned unconditionally — the row count of the conditional update is
never checked. -/
def claim_next_job2 (s_at_select s_at_update : List Job) (worker_id : String)
    (now : Int) : List Job × Option JobView :=
  match claim_select s_at_select with
  | none => (s_at_update, none)
  | some job_id =>
    let s2 := (claim_update s_at_update job_id worker_id now).1
    (s2, get_job s2 job_id)

/-- `claim_next_job` (src/jobs.py) run without interference: both
statements see the same table state. -/
def claim_next_job (s : List Job) (worker_id : String) (now : Int) :
    List Job × Option JobView :=
  claim_next_job2 s s worker_id now

/-- The SET clause built by `update_job_status` (src/jobs.py):
`updated_at` and `status` always; `finished_at` exactly when the new
status is `succeeded` or `failed`; each of `result`, `error`, `progress`,
`attempts` only when supplied (Python `is not None`), with `result` and
`progress` serialized. -/
def update_row (j : Job) (status : String) (result : Option JVal)
    (error : Option String) (progress : Option JVal) (attempts : Option Int)
    (now : Int) : Job :=
  { j with
    updated_at := now
    status := status
    finished_at :=
      if status = "succeeded" ∨ status = "failed" then some now else j.finished_at
    result := match result with | some r => some (dumps r) | none => j.result
    error := match error with | some e => some e | none => j.error
    progress := match progress with | some p => some (dumps p) | none => j.progress
    attempts := match attempts with | some a => a | none => j.attempts }

/-- Shallow embedding of `update_job_status` (src/jobs.py): the UPDATE
hits every row whose `id` matches (the primary key makes it at most
one). -/
def update_job_status (s : List Job) (job_id status : String) (result : Option JVal)
    (error : Option String) (progress : Option JVal) (attempts : Option Int)
    (now : Int) : List Job :=
  s.map fun j =>
    if j.id = job_id then update_row j status result error progress attempts now else j

/-- The truthiness test Python applies to each optional filter of
`list_jobs`: a filter is added exactly when the argument is a non-empty
string. -/
def list_matches (status job_type : Option String) (j : Job) : Bool :=
  (match status with
   | some t => if t.isEmpty then true else j.status == t
   | none => true) &&
  (match job_type with
   | some t => if t.isEmpty then true else j.type == t
   | none => true)

/-- Shallow embedding of `list_jobs` (src/jobs.py): filter, `ORDER BY
created_at DESC`, `LIMIT ?`. -/
def list_jobs (s : List Job) (status job_type : Option String) (limit : Nat) :
    List Job :=
  ((s.filter (list_matches status job_type)).mergeSort
      fun a b => b.created_at ≤ a.created_at).take limit

/-- The WHERE clause of `requeue_stale_jobs`: `status = 'running' AND
started_at < cutoff` with `cutoff = now - timeout_seconds`; a NULL
`started_at` never compares true in SQL. -/
def staleTest (timeout_seconds now : Int) (j : Job) : Bool :=
  j.status == "running" &&
    (match j.started_at with
     | some t => t < now - timeout_seconds
     | none => false)

/-- The SET clause of `requeue_stale_jobs`. -/
def requeue_row (j : Job) (now : Int) : Job :=
  { j with status := "queued", worker_id := none, updated_at := now }

/-- Shallow embedding of `requeue_stale_jobs` (src/jobs.py). -/
def requeue_stale_jobs (s : List Job) (timeout_seconds now : Int) : List Job :=
  s.map fun j => if staleTest timeout_seconds now j then requeue_row j now else j

/-- The fields of the claimed job dict that `process_job` (src/worker.py)
reads: `id`, `type`, `attempts`, `max_attempts`. -/
structure JobSnap where
  id : String
  type : String
  attempts : Int
  max_attempts : Int
deriving DecidableEq

/-- Snapshot of the dict `claim_next_job` handed to the worker. -/
def snap_of_view (v : JobView) : JobSnap :=
  { id := v.id, type := v.type, attempts := v.attempts,
    max_attempts := v.max_attempts }

/-- Outcome of the handler body: the subprocess returned (with exit code,
stdout, stderr), or an exception escaped to the catch-all handler. -/
inductive HandlerOutcome where
  | ret (returncode : Int) (stdout stderr : String)
  | exc (msg : String)
deriving DecidableEq

/-- The literal progress dict `process_job` writes when it starts a
known-type job. -/
def progress_starting : JVal :=
  JVal.jobj [("stage".toList, JVal.jstr "starting".toList)]

/-- Shallow embedding of `process_job` (src/worker.py).  For the known
type the job is first marked running with a starting progress note, then
the subprocess outcome decides: exit code 0 marks `succeeded` with the
captured stdout, a non-zero exit marks `failed` with stderr (or the
fallback text) — with no attempts change; an exception increments the
snapshot's attempt count and marks `failed` when it reaches
`max_attempts`, else `queued`.  An unknown type is marked `failed`
immediately. -/
def process_job (s : List Job) (job : JobSnap) (outcome : HandlerOutcome)
    (t_run t_fin : Int) : List Job :=
  if job.type = "generate_amazon_content" then
    let s1 := update_job_status s job.id "running" none none
      (some progress_starting) none t_run
    match outcome with
    | .ret rc stdout stderr =>
      if rc = 0 then
        update_job_status s1 job.id "succeeded"
          (some (JVal.jobj [("output".toList, JVal.jstr stdout.toList)]))
          none none none t_fin
      else
        update_job_status s1 job.id "failed" none
          (some (if stderr.isEmpty then "Script failed" else stderr))
          none none t_fin
    | .exc msg =>
      let attempts := job.attempts + 1
      if job.max_attempts ≤ attempts then
        update_job_status s1 job.id "failed" none
          (some ("Worker exception: " ++ msg)) none (some attempts) t_fin
      else
        update_job_status s1 job.id "queued" none
          (some ("Worker exception: " ++ msg)) none (some attempts) t_fin
  else
    update_job_status s job.id "failed" none
      (some ("Unknown job type: " ++ job.type)) none none t_fin

/-- One poll of the worker loop against a handler that always raises:
claim, and if a job was obtained, process it with an exception outcome.
The boolean records whether a handler execution happened. -/
def raise_cycle (s : List Job) (worker_id msg : String) (t : Int) :
    List Job × Bool :=
  match claim_next_job s worker_id t with
  | (s1, some v) => (process_job s1 (snap_of_view v) (.exc msg) t t, true)
  | (s1, none) => (s1, false)

/-- `n` polls of the always-raising worker; counts handler executions. -/
def raise_iter (worker_id msg : String) (t : Int) :
    Nat → List Job → List Job × Nat
  | 0, s => (s, 0)
  | n + 1, s =>
    ((raise_iter worker_id msg t n (raise_cycle s worker_id msg t).1).1,
     (if (raise_cycle s worker_id msg t).2 then 1 else 0) +
       (raise_iter worker_id msg t n (raise_cycle s worker_id msg t).1).2)

/-- A store holding exactly one job, of the known type, currently
`queued`, with the given attempt counters — the configuration of the
bounded-retry scenario. -/
def single_queued (s : List Job) (a m : Int) : Prop :=
  ∃ j, s = [j] ∧ j.type = "generate_amazon_content" ∧ j.status = "queued" ∧
    j.attempts = a ∧ j.max_attempts = m

/-- A store holding exactly one job, permanently `failed`, with the given
attempt counters. -/
def single_failed (s : List Job) (a m : Int) : Prop :=
  ∃ j, s = [j] ∧ j.status = "failed" ∧ j.attempts = a ∧ j.max_attempts = m

/-- A worker process that has claimed a job and not yet written a
terminal state for it: its id, the snapshot of the claimed dict it works
from, and whether it has already issued the `running` progress update. -/
structure HeldJob where
  wid : String
  snap : JobSnap
  started : Bool
deriving DecidableEq

/-- Configuration of the whole system: the shared table, the in-flight
workers, and two ghost histories — which job ids have ever been set
`running` and which have ever been set to a terminal status.  The ghost
lists let history-dependent parts of the spec's invariants be stated on
the configuration alone; they are written only by the steps below and
never read by them. -/
structure WConfig where
  store : List Job
  holding : List HeldJob
  everRunning : List String
  everTerminal : List String
deriving DecidableEq

/-- Interleaved executions of the queue operations at SQL-statement
granularity: enqueue, an (uninterfered) claim, the worker's status
updates from `process_job` (src/worker.py) — the initial `running`
update, the success / subprocess-error / exception / unknown-type
terminal updates — and the stale-job reclaim.  Several workers may hold
jobs at once, which is how a stale reclaim can hand one job to a second
worker while the first still intends to report on it. -/
inductive Reach : WConfig → Prop where
  | init : Reach ⟨[], [], [], []⟩
  | enqueue {c : WConfig} (hc : Reach c) (job_id : String) (now : Int)
      (job_type : String) (payload : JVal) (requested_by : Option String)
      (max_attempts : Int)
      (hfresh : ∀ j ∈ c.store, j.id ≠ job_id)
      (hfresh2 : job_id ∉ c.everRunning)
      (hfresh3 : job_id ∉ c.everTerminal)
      (hfresh4 : ∀ h ∈ c.holding, h.snap.id ≠ job_id) :
      Reach ⟨enqueue_job c.store job_id now job_type payload requested_by
               max_attempts,
             c.holding, c.everRunning, c.everTerminal⟩
  | claim {c : WConfig} (hc : Reach c) (wid : String) (now : Int)
      (jid : String) (v : JobView)
      (hsel : claim_select c.store = some jid)
      (hget : get_job (claim_update c.store jid wid now).1 jid = some v) :
      Reach ⟨(claim_update c.store jid wid now).1,
             ⟨wid, snap_of_view v, false⟩ :: c.holding,
             jid :: c.everRunning, c.everTerminal⟩
  | begin_running {c : WConfig} (hc : Reach c) (w : HeldJob)
      (l1 l2 : List HeldJob) (now : Int)
      (hhold : c.holding = l1 ++ w :: l2) (hstarted : w.started = false)
      (htype : w.snap.type = "generate_amazon_content") :
      Reach ⟨update_job_status c.store w.snap.id "running" none none
               (some progress_starting) none now,
             l1 ++ { w with started := true } :: l2,
             w.snap.id :: c.everRunning, c.everTerminal⟩
  | finish_success {c : WConfig} (hc : Reach c) (w : HeldJob)
      (l1 l2 : List HeldJob) (stdout : String) (now : Int)
      (hhold : c.holding = l1 ++ w :: l2) (hstarted : w.started = true) :
      Reach ⟨update_job_status c.store w.snap.id "succeeded"
               (some (JVal.jobj [("output".toList, JVal.jstr stdout.toList)]))
               none none none now,
             l1 ++ l2, c.everRunning, w.snap.id :: c.everTerminal⟩
  | finish_ret_error {c : WConfig} (hc : Reach c) (w : HeldJob)
      (l1 l2 : List HeldJob) (stderr : String) (now : Int)
      (hhold : c.holding = l1 ++ w :: l2) (hstarted : w.started = true) :
      Reach ⟨update_job_status c.store w.snap.id "failed" none
               (some (if stderr.isEmpty then "Script failed" else stderr))
               none none now,
             l1 ++ l2, c.everRunning, w.snap.id :: c.everTerminal⟩
  | finish_exc_fail {c : WConfig} (hc : Reach c) (w : HeldJob)
      (l1 l2 : List HeldJob) (msg : String) (now : Int)
      (hhold : c.holding = l1 ++ w :: l2)
      (hmax : w.snap.max_attempts ≤ w.snap.attempts + 1) :
      Reach ⟨update_job_status c.store w.snap.id "failed" none
               (some ("Worker exception: " ++ msg)) none
               (some (w.snap.attempts + 1)) now,
             l1 ++ l2, c.everRunning, w.snap.id :: c.everTerminal⟩
  | finish_exc_requeue {c : WConfig} (hc : Reach c) (w : HeldJob)
      (l1 l2 : List HeldJob) (msg : String) (now : Int)
      (hhold : c.holding = l1 ++ w :: l2)
      (hlt : w.snap.attempts + 1 < w.snap.max_attempts) :
      Reach ⟨update_job_status c.store w.snap.id "queued" none
               (some ("Worker exception: " ++ msg)) none
               (some (w.snap.attempts + 1)) now,
             l1 ++ l2, c.everRunning, c.everTerminal⟩
  | finish_unknown {c : WConfig} (hc : Reach c) (w : HeldJob)
      (l1 l2 : List HeldJob) (now : Int)
      (hhold : c.holding = l1 ++ w :: l2)
      (htype : w.snap.type ≠ "generate_amazon_content") :
      Reach ⟨update_job_status c.store w.snap.id "failed" none
               (some ("Unknown job type: " ++ w.snap.type)) none none now,
             l1 ++ l2, c.everRunning, w.snap.id :: c.everTerminal⟩
  | reclaim {c : WConfig} (hc : Reach c) (timeout_seconds now : Int) :
      Reach ⟨requeue_stale_jobs c.store timeout_seconds now,
             c.holding, c.everRunning, c.everTerminal⟩

/-- Rest inputs a JSON document may be followed by without changing how
it parses: nothing, or a character that cannot extend a number literal. -/
def GoodRest : List Char → Prop
  | [] => True
  | c :: _ => isDigitChar c = false

/-- Purely-whitespace character lists. -/
def AllWs (ws : List Char) : Prop := ∀ c ∈ ws, isWsChar c = true

/-! ## Selection-minimum helper lemmas -/

/-- The fold in `claim_select` returns its seed or one of the folded
elements. -/
theorem claim_foldl_mem (js : List Job) : ∀ j : Job,
    js.foldl (fun best x => if x.created_at < best.created_at then x else best) j = j ∨
    js.foldl (fun best x => if x.created_at < best.created_at then x else best) j ∈ js := by
  induction js with
  | nil => intro j; exact Or.inl rfl
  | cons x t ih =>
    intro j
    simp only [List.foldl_cons]
    rcases ih (if x.created_at < j.created_at then x else j) with h | h
    · rw [h]
      by_cases hx : x.created_at < j.created_at
      · simp [hx]
      · simp [hx]
    · exact Or.inr (List.mem_cons_of_mem _ h)

/-- The fold in `claim_select` computes a row whose `created_at` is a
lower bound of the seed's and of every folded element's. -/
theorem claim_foldl_le (js : List Job) : ∀ j k : Job, (k = j ∨ k ∈ js) →
    (js.foldl (fun best x => if x.created_at < best.created_at then x else best) j).created_at
      ≤ k.created_at := by
  induction js with
  | nil =>
    intro j k hk
    rcases hk with rfl | h
    · exact le_refl _
    · cases h
  | cons x t ih =>
    intro j k hk
    simp only [List.foldl_cons]
    have hbase :
        (t.foldl (fun best x => if x.created_at < best.created_at then x else best)
            (if x.created_at < j.created_at then x else j)).created_at ≤
          (if x.created_at < j.created_at then x else j).created_at :=
      ih _ _ (Or.inl rfl)
    rcases hk with rfl | hk
    · refine le_trans hbase ?_
      by_cases hx : x.created_at < k.created_at
      · simp only [hx, if_pos]
        omega
      · simp [hx]
    · rcases List.mem_cons.mp hk with rfl | hk2
      · refine le_trans hbase ?_
        by_cases hx : k.created_at < j.created_at
        · simp [hx]
        · simp only [hx, if_neg, if_false]
          omega
      · exact ih _ _ (Or.inr hk2)

/-- What `claim_select` selects: a queued row of the table whose
`created_at` is minimal among all queued rows. -/
theorem claim_select_spec (s : List Job) (jid : String)
    (h : claim_select s = some jid) :
    ∃ j, j ∈ s ∧ j.id = jid ∧ j.status = "queued" ∧
      ∀ k ∈ s, k.status = "queued" → j.created_at ≤ k.created_at := by
  unfold claim_select at h
  cases hf : s.filter (fun j => j.status == "queued") with
  | nil => rw [hf] at h; cases h
  | cons j js =>
    rw [hf] at h
    have hid :
        (js.foldl (fun best x => if x.created_at < best.created_at then x else best) j).id
          = jid := by
      exact Option.some.inj h
    refine ⟨js.foldl (fun best x => if x.created_at < best.created_at then x else best) j,
      ?_, hid, ?_, ?_⟩
    · have hmem :
          js.foldl (fun best x => if x.created_at < best.created_at then x else best) j
            ∈ s.filter (fun j => j.status == "queued") := by
        rw [hf]
        rcases claim_foldl_mem js j with he | he
        · rw [he]; exact List.mem_cons_self _ _
        · exact List.mem_cons_of_mem _ he
      exact (List.mem_filter.mp hmem).1
    · have hmem :
          js.foldl (fun best x => if x.created_at < best.created_at then x else best) j
            ∈ s.filter (fun j => j.status == "queued") := by
        rw [hf]
        rcases claim_foldl_mem js j with he | he
        · rw [he]; exact List.mem_cons_self _ _
        · exact List.mem_cons_of_mem _ he
      have := (List.mem_filter.mp hmem).2
      simpa using this
    · intro k hk hkq
      have hkf : k ∈ s.filter (fun j => j.status == "queued") :=
        List.mem_filter.mpr ⟨hk, by simp [hkq]⟩
      rw [hf] at hkf
      exact claim_foldl_le js j k (List.mem_cons.mp hkf)

/-! ## C4: FIFO claim selection -/

/-- C4.  `ClaimNextJob` selects a queued job with the smallest
`created_at` (oldest first, limit 1); and for a store holding exactly
jobs A then B, both queued with A enqueued no later than B, a single
claim call returns A, never B. -/
theorem C4_fifo_claim (s : List Job) (jid : String) (A B : Job) (wid : String)
    (now : Int) (hA : A.status = "queued") (hB : B.status = "queued")
    (hAB : A.created_at ≤ B.created_at) :
    (claim_select s = some jid →
      ∃ j, j ∈ s ∧ j.id = jid ∧ j.status = "queued" ∧
        ∀ k ∈ s, k.status = "queued" → j.created_at ≤ k.created_at) ∧
    ((claim_next_job [A, B] wid now).2.map fun v => v.id) = some A.id := by
  constructor
  · exact claim_select_spec s jid
  · have hsel : claim_select [A, B] = some A.id := by
      unfold claim_select
      have : ¬ B.created_at < A.created_at := not_lt.mpr hAB
      simp [List.filter, hA, hB, this]
    unfold claim_next_job claim_next_job2
    rw [hsel]
    simp only [claim_update, get_job, List.map_cons, List.map_nil]
    simp [hA, claim_row, List.find?]

/-- Witness for C4 at a concrete two-job store: the older job is the one
returned. -/
theorem C4_witness :
    ((claim_next_job
        [⟨"a", "t", "queued", 1, 1, none, none, none, "null", none, none, 0, 3, none, none⟩,
         ⟨"b", "t", "queued", 2, 2, none, none, none, "null", none, none, 0, 3, none, none⟩]
        "w" 9).2.map fun v => v.id) = some "a" :=
  (C4_fifo_claim []
    "x"
    ⟨"a", "t", "queued", 1, 1, none, none, none, "null", none, none, 0, 3, none, none⟩
    ⟨"b", "t", "queued", 2, 2, none, none, none, "null", none, none, 0, 3, none, none⟩
    "w" 9 rfl rfl (by decide)).2

/-! ## C6: partial update -/

/-- C6.  `UpdateJobStatus` rewrites only the supplied optional fields;
`status` and `updated_at` are always rewritten, `finished_at` is set to
now exactly when the supplied status is `succeeded` or `failed`, every
other column of the row is unchanged, and rows with a different id are
untouched. -/
theorem C6_partial_update (s : List Job) (job_id status : String)
    (result : Option JVal) (error : Option String) (progress : Option JVal)
    (attempts : Option Int) (now : Int) (j : Job) (hj : j ∈ s)
    (hid : j.id = job_id) :
    update_row j status result error progress attempts now ∈
      update_job_status s job_id status result error progress attempts now ∧
    (update_row j status result error progress attempts now).status = status ∧
    (update_row j status result error progress attempts now).updated_at = now ∧
    (update_row j status result error progress attempts now).finished_at =
      (if status = "succeeded" ∨ status = "failed" then some now
       else j.finished_at) ∧
    (update_row j status result error progress attempts now).result =
      (match result with | some v => some (dumps v) | none => j.result) ∧
    (update_row j status result error progress attempts now).error =
      (match error with | some e => some e | none => j.error) ∧
    (update_row j status result error progress attempts now).progress =
      (match progress with | some p => some (dumps p) | none => j.progress) ∧
    (update_row j status result error progress attempts now).attempts =
      (match attempts with | some a => a | none => j.attempts) ∧
    (update_row j status result error progress attempts now).id = j.id ∧
    (update_row j status result error progress attempts now).type = j.type ∧
    (update_row j status result error progress attempts now).created_at =
      j.created_at ∧
    (update_row j status result error progress attempts now).started_at =
      j.started_at ∧
    (update_row j status result error progress attempts now).worker_id =
      j.worker_id ∧
    (update_row j status result error progress attempts now).payload =
      j.payload ∧
    (update_row j status result error progress attempts now).requested_by =
      j.requested_by ∧
    (update_row j status result error progress attempts now).max_attempts =
      j.max_attempts ∧
    (∀ k ∈ s, k.id ≠ job_id →
      k ∈ update_job_status s job_id status result error progress attempts now) := by
  refine ⟨?_, rfl, rfl, rfl, rfl, rfl, rfl, rfl, rfl, rfl, rfl, rfl, rfl, rfl, rfl,
    rfl, ?_⟩
  · unfold update_job_status
    have : update_row j status result error progress attempts now =
        (fun k => if k.id = job_id then
            update_row k status result error progress attempts now else k) j := by
      simp [hid]
    rw [this]
    exact List.mem_map_of_mem _ hj
  · intro k hk hkid
    unfold update_job_status
    have : k = (fun k => if k.id = job_id then
        update_row k status result error progress attempts now else k) k := by
      simp [hkid]
    rw [this]
    exact List.mem_map_of_mem _ hk

/-- Witness for C6 at a concrete one-row store and a status update to
`succeeded`. -/
theorem C6_witness :
    (update_row
        ⟨"a", "t", "running", 1, 1, some 1, none, none, "null", none, none, 0, 3,
          none, some "w"⟩
        "succeeded" none none none none 7).finished_at = some 7 :=
  (C6_partial_update
    [⟨"a", "t", "running", 1, 1, some 1, none, none, "null", none, none, 0, 3,
      none, some "w"⟩]
    "a" "succeeded" none none none none 7
    ⟨"a", "t", "running", 1, 1, some 1, none, none, "null", none, none, 0, 3,
      none, some "w"⟩
    (List.mem_singleton.mpr rfl) rfl).2.2.2.1

/-! ## C9: a claim overwrites the running bookkeeping -/

/-- C9.  The conditional claim update overwrites `started_at`,
`worker_id` and `updated_at` of the selected queued row with the claim
time and the claiming worker, whatever they held before; consequently the
stale test measures from the most recent claim: right after a claim at
time `t2`, a reclaim sweep at `now2` leaves the row alone iff
`now2 ≤ t2 + timeout`. -/
theorem C9_claim_overwrite (s : List Job) (job_id wid : String) (t2 : Int)
    (j : Job) (hj : j ∈ s) (hid : j.id = job_id) (hq : j.status = "queued") :
    claim_row j wid t2 ∈ (claim_update s job_id wid t2).1 ∧
    (claim_row j wid t2).status = "running" ∧
    (claim_row j wid t2).started_at = some t2 ∧
    (claim_row j wid t2).worker_id = some wid ∧
    (claim_row j wid t2).updated_at = t2 ∧
    (claim_row j wid t2).attempts = j.attempts ∧
    (∀ timeout now2 : Int, now2 ≤ t2 + timeout →
      staleTest timeout now2 (claim_row j wid t2) = false) ∧
    (∀ timeout now2 : Int, t2 + timeout < now2 →
      staleTest timeout now2 (claim_row j wid t2) = true) := by
  refine ⟨?_, rfl, rfl, rfl, rfl, rfl, ?_, ?_⟩
  · unfold claim_update
    have : claim_row j wid t2 =
        (fun k => if k.id = job_id ∧ k.status = "queued" then
            claim_row k wid t2 else k) j := by
      simp [hid, hq]
    rw [this]
    exact List.mem_map_of_mem _ hj
  · intro timeout now2 h
    simp only [staleTest, claim_row]
    simp only [Bool.and_eq_false_iff]
    right
    simp only [decide_eq_false_iff_not]
    omega
  · intro timeout now2 h
    simp only [staleTest, claim_row]
    simp only [Bool.and_eq_true]
    constructor
    · simp
    · simp only [decide_eq_true_eq]
      omega

/-- Witness for C9: a job previously started at time 0 and re-claimed at
time 50 is not reclaimed by a sweep at time 50 + timeout. -/
theorem C9_witness :
    staleTest 600 650
      (claim_row
        ⟨"a", "t", "queued", 0, 40, some 0, none, none, "null", none, none, 1, 3,
          none, some "w0"⟩
        "w1" 50) = false :=
  ((C9_claim_overwrite
    [⟨"a", "t", "queued", 0, 40, some 0, none, none, "null", none, none, 1, 3,
      none, some "w0"⟩]
    "a" "w1" 50
    ⟨"a", "t", "queued", 0, 40, some 0, none, none, "null", none, none, 1, 3,
      none, some "w0"⟩
    (List.mem_singleton.mpr rfl) rfl rfl).2.2.2.2.2.2.1) 600 650 (by decide)

/-! ## C10: empty-string filters are absent filters -/

/-- C10.  `list_jobs` applies a filter only when the argument is truthy,
so an empty-string status or type filter lists jobs of every status and
type, exactly as when the filter is absent. -/
theorem C10_empty_filter (s : List Job) (st ty : Option String) (lim : Nat) :
    list_jobs s (some "") ty lim = list_jobs s none ty lim ∧
    list_jobs s st (some "") lim = list_jobs s st none lim :=
  ⟨rfl, rfl⟩

/-! ## C3: stale-job reclaim -/

/-- C3 (amended).  `RequeueStaleJobs(timeout)` flips every running row
whose `started_at` is older than now − timeout to `queued`, clearing
`worker_id`, refreshing `updated_at` and leaving `attempts` (and every
other column) unchanged; a job claimed at time T and not updated since
remains `running` when the sweep runs at any time ≤ T + timeout, and
becomes `queued` when the sweep runs strictly after T + timeout (the
source comparison `started_at < now - timeout` is strict, so at exactly
T + timeout the job is still running). -/
theorem C3_stale_requeue (s : List Job) (t_out now T : Int) (j : Job)
    (hj : j ∈ s) (hr : j.status = "running") (hT : j.started_at = some T) :
    (T < now - t_out →
      requeue_row j now ∈ requeue_stale_jobs s t_out now ∧
      (requeue_row j now).status = "queued" ∧
      (requeue_row j now).worker_id = none ∧
      (requeue_row j now).updated_at = now ∧
      (requeue_row j now).attempts = j.attempts ∧
      (requeue_row j now).started_at = j.started_at ∧
      (requeue_row j now).finished_at = j.finished_at ∧
      (requeue_row j now).created_at = j.created_at ∧
      (requeue_row j now).id = j.id) ∧
    (now ≤ T + t_out → j ∈ requeue_stale_jobs s t_out now) ∧
    (T + t_out < now → requeue_row j now ∈ requeue_stale_jobs s t_out now) := by
  have hmem_t : T < now - t_out →
      requeue_row j now ∈ requeue_stale_jobs s t_out now := by
    intro h
    unfold requeue_stale_jobs
    have hs : staleTest t_out now j = true := by
      simp only [staleTest, hr, hT]
      simp only [Bool.and_eq_true, beq_self_eq_true, true_and]
      simpa using h
    have : requeue_row j now =
        (fun k => if staleTest t_out now k then requeue_row k now else k) j := by
      simp [hs]
    rw [this]
    exact List.mem_map_of_mem _ hj
  refine ⟨fun h => ⟨hmem_t h, rfl, rfl, rfl, rfl, rfl, rfl, rfl, rfl⟩, ?_, ?_⟩
  · intro h
    unfold requeue_stale_jobs
    have hs : staleTest t_out now j = false := by
      simp only [staleTest, hr, hT]
      simp only [Bool.and_eq_false_iff]
      right
      simp only [decide_eq_false_iff_not]
      omega
    have : j = (fun k => if staleTest t_out now k then requeue_row k now else k) j := by
      simp [hs]
    rw [this]
    exact List.mem_map_of_mem _ hj
  · intro h
    exact hmem_t (by omega)

/-- Counterexample for C3 as stated: a job claimed at T = 0 with a
600-second timeout is NOT requeued by a sweep at exactly time 600
(= T + timeout), though the claim promises requeue at every time
≥ T + timeout. -/
theorem C3_counterexample :
    (requeue_stale_jobs
        [⟨"j1", "t", "running", 0, 1, some 0, none, none, "null", none, none, 0,
          3, none, some "w"⟩]
        600 600).map Job.status = ["running"] := by
  decide

/-- Witness for C3 at a sweep strictly after the deadline: the job is
requeued with `attempts` untouched. -/
theorem C3_witness :
    requeue_row
        ⟨"j1", "t", "running", 0, 1, some 0, none, none, "null", none, none, 2,
          3, none, some "w"⟩ 601 ∈
      requeue_stale_jobs
        [⟨"j1", "t", "running", 0, 1, some 0, none, none, "null", none, none, 2,
          3, none, some "w"⟩]
        600 601 :=
  ((C3_stale_requeue
    [⟨"j1", "t", "running", 0, 1, some 0, none, none, "null", none, none, 2,
      3, none, some "w"⟩]
    600 601 0
    ⟨"j1", "t", "running", 0, 1, some 0, none, none, "null", none, none, 2,
      3, none, some "w"⟩
    (List.mem_singleton.mpr rfl) rfl rfl).1 (by decide)).1

/-! ## C1: the claim race -/

/-- C1 (the code, evaluated at the failing input).  Worker w2's SELECT
runs against a table holding one queued job; before w2's conditional
UPDATE commits, worker w1 claims that job.  The conditional update of w2
then affects zero rows — and yet the call returns the job (now running,
owned by w1) instead of "no job": the source never checks the affected
row count and unconditionally re-fetches and returns the selected id.
This is the race in which two callers both receive the same job. -/
theorem C1_race_returns_claimed_job :
    (claim_update
        ((claim_update
            [⟨"j1", "t", "queued", 0, 0, none, none, none, "null", none, none, 0,
              3, none, none⟩]
            "j1" "w1" 10).1)
        "j1" "w2" 11).2 = 0 ∧
    ((claim_next_job2
        [⟨"j1", "t", "queued", 0, 0, none, none, none, "null", none, none, 0,
          3, none, none⟩]
        ((claim_update
            [⟨"j1", "t", "queued", 0, 0, none, none, none, "null", none, none, 0,
              3, none, none⟩]
            "j1" "w1" 10).1)
        "w2" 11).2.map fun v => (v.status, v.worker_id)) =
      some ("running", some "w1") := by
  constructor
  · decide
  · rfl

/-! ## C7: listing with filters -/

/-- C7.  `ListJobs(status?, type?, limit)` returns only jobs of the store
matching the (truthy) filters, in non-increasing `created_at` order
(newest first), truncated to at most `limit`; when at most `limit` rows
match, every matching row is returned; and whenever anything matches and
`limit ≥ 1`, the first returned job has the greatest `created_at` of all
matching jobs — so `ListJobs(status="queued", limit=1)` over five queued
jobs returns exactly one, the most recently created. -/
theorem C7_list_jobs (s : List Job) (st ty : Option String) (lim : Nat) :
    (∀ j ∈ list_jobs s st ty lim, j ∈ s ∧ list_matches st ty j = true) ∧
    List.Pairwise (fun a b => b.created_at ≤ a.created_at)
      (list_jobs s st ty lim) ∧
    (list_jobs s st ty lim).length =
      min lim (s.filter (list_matches st ty)).length ∧
    ((s.filter (list_matches st ty)).length ≤ lim →
      ∀ j ∈ s, list_matches st ty j = true → j ∈ list_jobs s st ty lim) ∧
    (∀ j ∈ s, list_matches st ty j = true → 1 ≤ lim →
      ∃ r, (list_jobs s st ty lim).head? = some r ∧
        j.created_at ≤ r.created_at) := by
  have hperm :
      ((s.filter (list_matches st ty)).mergeSort
          (fun a b => b.created_at ≤ a.created_at)).Perm
        (s.filter (list_matches st ty)) :=
    List.mergeSort_perm _ _
  have hsorted :
      List.Pairwise
        (fun a b : Job => (decide (b.created_at ≤ a.created_at)) = true)
        ((s.filter (list_matches st ty)).mergeSort
          (fun a b => b.created_at ≤ a.created_at)) := by
    refine List.sorted_mergeSort ?_ ?_ _
    · intro a b c hab hbc
      simp only [decide_eq_true_eq] at *
      omega
    · intro a b
      simp only [Bool.or_eq_true, decide_eq_true_eq]
      omega
  refine ⟨?_, ?_, ?_, ?_, ?_⟩
  · intro j hj
    have hj2 : j ∈ (s.filter (list_matches st ty)).mergeSort
        (fun a b => b.created_at ≤ a.created_at) :=
      List.mem_of_mem_take hj
    have hj3 : j ∈ s.filter (list_matches st ty) := hperm.mem_iff.mp hj2
    exact ⟨(List.mem_filter.mp hj3).1, (List.mem_filter.mp hj3).2⟩
  · refine List.Pairwise.imp ?_ (hsorted.sublist (List.take_sublist _ _))
    intro a b h
    exact of_decide_eq_true h
  · unfold list_jobs
    rw [List.length_take, hperm.length_eq]
  · intro hle j hj hm
    unfold list_jobs
    rw [List.take_of_length_le (by rw [hperm.length_eq]; exact hle)]
    exact hperm.mem_iff.mpr (List.mem_filter.mpr ⟨hj, hm⟩)
  · intro j hj hm hlim
    have hj3 : j ∈ (s.filter (list_matches st ty)).mergeSort
        (fun a b => b.created_at ≤ a.created_at) :=
      hperm.mem_iff.mpr (List.mem_filter.mpr ⟨hj, hm⟩)
    cases hms : (s.filter (list_matches st ty)).mergeSort
        (fun a b => b.created_at ≤ a.created_at) with
    | nil => rw [hms] at hj3; cases hj3
    | cons r t =>
      refine ⟨r, ?_, ?_⟩
      · unfold list_jobs
        rw [hms]
        cases lim with
        | zero => omega
        | succ m => rfl
      · rw [hms] at hj3 hsorted
        rcases List.mem_cons.mp hj3 with rfl | hj4
        · exact le_refl _
        · have := (List.pairwise_cons.mp hsorted).1 j hj4
          exact of_decide_eq_true this

/-- Witness for C7's completeness and head parts at a concrete store. -/
theorem C7_witness :
    ∃ r, (list_jobs
        [⟨"a", "t", "queued", 1, 1, none, none, none, "null", none, none, 0, 3,
          none, none⟩,
         ⟨"b", "t", "queued", 5, 5, none, none, none, "null", none, none, 0, 3,
          none, none⟩]
        (some "queued") none 1).head? = some r ∧ (1 : Int) ≤ r.created_at :=
  (C7_list_jobs
    [⟨"a", "t", "queued", 1, 1, none, none, none, "null", none, none, 0, 3,
      none, none⟩,
     ⟨"b", "t", "queued", 5, 5, none, none, none, "null", none, none, 0, 3,
      none, none⟩]
    (some "queued") none 1).2.2.2.2
    ⟨"a", "t", "queued", 1, 1, none, none, none, "null", none, none, 0, 3,
      none, none⟩
    (by decide) (by decide) (by decide)

/-! ## C2: worker failure handling -/

/-- A row whose id matches is rewritten by `update_job_status`. -/
theorem update_row_mem (s : List Job) (job_id status : String)
    (result : Option JVal) (error : Option String) (progress : Option JVal)
    (attempts : Option Int) (now : Int) (j : Job) (hj : j ∈ s)
    (hid : j.id = job_id) :
    update_row j status result error progress attempts now ∈
      update_job_status s job_id status result error progress attempts now := by
  unfold update_job_status
  have : update_row j status result error progress attempts now =
      (fun k => if k.id = job_id then
          update_row k status result error progress attempts now else k) j := by
    simp [hid]
  rw [this]
  exact List.mem_map_of_mem _ hj

/-- Claiming against a one-row queued store: the row is claimed and
re-fetched. -/
theorem claim_next_job_single (j : Job) (wid : String) (t : Int)
    (hst : j.status = "queued") :
    claim_next_job [j] wid t =
      ([claim_row j wid t], get_job [claim_row j wid t] j.id) := by
  have hsel : claim_select [j] = some j.id := by
    simp [claim_select, List.filter, hst]
  unfold claim_next_job claim_next_job2
  rw [hsel]
  simp [claim_update, hst]

/-- The snapshot the worker takes from a one-row fetch. -/
theorem get_job_single_snap (j : Job) :
    (get_job [j] j.id).map snap_of_view =
      some ⟨j.id, j.type, j.attempts, j.max_attempts⟩ := by
  simp [get_job, List.find?, snap_of_view]

/-- One always-raising poll against a one-job queued store: the handler
runs once, attempts goes up by one, and the job lands in `failed` or back
in `queued` according to the `max_attempts` bound. -/
theorem raise_cycle_queued (s : List Job) (a m : Int) (wid msg : String)
    (t : Int) (hs : single_queued s a m) :
    (raise_cycle s wid msg t).2 = true ∧
    (m ≤ a + 1 → single_failed (raise_cycle s wid msg t).1 (a + 1) m) ∧
    (a + 1 < m → single_queued (raise_cycle s wid msg t).1 (a + 1) m) := by
  obtain ⟨j, rfl, hty, hst, ha, hm⟩ := hs
  have hclaim := claim_next_job_single j wid t hst
  have hsnap := get_job_single_snap (claim_row j wid t)
  have hid2 : (claim_row j wid t).id = j.id := rfl
  rw [hid2] at hsnap
  unfold raise_cycle
  rw [hclaim]
  cases hget : get_job [claim_row j wid t] j.id with
  | none => rw [hget] at hsnap; cases hsnap
  | some v =>
    rw [hget] at hsnap
    have hsv : snap_of_view v =
        ⟨j.id, (claim_row j wid t).type, (claim_row j wid t).attempts,
         (claim_row j wid t).max_attempts⟩ := by
      have := Option.some.inj hsnap
      simpa using this
    simp only []
    rw [hsv]
    have hty2 : (claim_row j wid t).type = j.type := rfl
    have hat2 : (claim_row j wid t).attempts = j.attempts := rfl
    have hma2 : (claim_row j wid t).max_attempts = j.max_attempts := rfl
    refine ⟨by trivial, ?_, ?_⟩
    · intro hcap
      unfold process_job
      simp only [hty2, hat2, hma2, hty, ha, hm, if_pos rfl]
      rw [if_pos (by omega : m ≤ a + 1)]
      refine ⟨_, rfl, ?_, ?_, ?_⟩ <;>
        simp [update_job_status, update_row, claim_row, List.map, ha, hm]
    · intro hcap
      unfold process_job
      simp only [hty2, hat2, hma2, hty, ha, hm, if_pos rfl]
      rw [if_neg (by omega : ¬ m ≤ a + 1)]
      refine ⟨_, rfl, ?_, ?_, ?_, ?_⟩ <;>
        simp [update_job_status, update_row, claim_row, List.map, ha, hm, hty]

/-- Against a store whose only job is permanently failed, a poll claims
nothing and changes nothing. -/
theorem raise_cycle_failed (s : List Job) (a m : Int) (wid msg : String)
    (t : Int) (hs : single_failed s a m) :
    raise_cycle s wid msg t = (s, false) := by
  obtain ⟨j, rfl, hst, ha, hm⟩ := hs
  have hsel : claim_select [j] = none := by
    simp [claim_select, List.filter, hst]
  unfold raise_cycle claim_next_job claim_next_job2
  rw [hsel]

/-- Iterating polls over a permanently failed store does nothing. -/
theorem raise_iter_failed (wid msg : String) (t : Int) (s : List Job)
    (a m : Int) (hs : single_failed s a m) :
    ∀ n, raise_iter wid msg t n s = (s, 0) := by
  intro n
  induction n with
  | zero => rfl
  | succ k ih =>
    unfold raise_iter
    rw [raise_cycle_failed s a m wid msg t hs]
    simp [ih]

/-- The bounded-retry count: starting from a single queued job with
`attempts = a < max_attempts = m`, `n` always-raising polls execute the
handler `min n (m - a)` times; the job is queued with `attempts = a + n`
while `a + n < m` and permanently failed with `attempts = m` as soon as
`a + n ≥ m`. -/
theorem raise_iter_spec (wid msg : String) (t : Int) (m : Int) :
    ∀ (n : Nat) (s : List Job) (a : Int), a < m → single_queued s a m →
      ((a + n < m →
        single_queued (raise_iter wid msg t n s).1 (a + n) m ∧
        (raise_iter wid msg t n s).2 = n) ∧
       (m ≤ a + n →
        single_failed (raise_iter wid msg t n s).1 m m ∧
        ((raise_iter wid msg t n s).2 : Int) = m - a)) := by
  intro n
  induction n with
  | zero =>
    intro s a hlt hs
    constructor
    · intro _
      simpa using ⟨hs, rfl⟩
    · intro h
      simp only [Nat.cast_zero, add_zero] at h
      omega
  | succ k ih =>
    intro s a hlt hs
    have hcyc := raise_cycle_queued s a m wid msg t hs
    by_cases hcap : m ≤ a + 1
    · have hm_eq : m = a + 1 := by omega
      have hfail := hcyc.2.1 hcap
      constructor
      · intro h
        push_cast at h
        omega
      · intro _
        unfold raise_iter
        rw [raise_iter_failed wid msg t _ (a + 1) m hfail k]
        refine ⟨by rw [hm_eq] at hfail ⊢; simpa using hfail, ?_⟩
        simp [hcyc.1, hm_eq]
    · have hq := hcyc.2.2 (by omega)
      have ihk := ih (raise_cycle s wid msg t).1 (a + 1) (by omega) hq
      constructor
      · intro h
        have h2 : a + 1 + k < m := by push_cast at h ⊢; omega
        unfold raise_iter
        simp only [hcyc.1]
        refine ⟨?_, ?_⟩
        · have hx := (ihk.1 h2).1
          have he : a + ((k : Int) + 1) = a + 1 + k := by ring
          rw [Nat.cast_add, Nat.cast_one, he]
          exact hx
        · have hx := (ihk.1 h2).2
          simp [hx]
          omega
      · intro h
        have h2 : m ≤ a + 1 + k := by push_cast at h ⊢; omega
        unfold raise_iter
        simp only [hcyc.1]
        refine ⟨(ihk.2 h2).1, ?_⟩
        have hx := (ihk.2 h2).2
        push_cast
        push_cast at hx
        omega

/-- Branch equation of `process_job` for a subprocess that returned. -/
theorem process_job_ret_eq (s : List Job) (job : JobSnap) (rc : Int)
    (stdout stderr : String) (t_run t_fin : Int) :
    process_job s job (.ret rc stdout stderr) t_run t_fin =
      if job.type = "generate_amazon_content" then
        (if rc = 0 then
          update_job_status
            (update_job_status s job.id "running" none none
              (some progress_starting) none t_run)
            job.id "succeeded"
            (some (JVal.jobj [("output".toList, JVal.jstr stdout.toList)]))
            none none none t_fin
        else
          update_job_status
            (update_job_status s job.id "running" none none
              (some progress_starting) none t_run)
            job.id "failed" none
            (some (if stderr.isEmpty then "Script failed" else stderr))
            none none t_fin)
      else
        update_job_status s job.id "failed" none
          (some ("Unknown job type: " ++ job.type)) none none t_fin := rfl

theorem process_job_exc_eq (s : List Job) (job : JobSnap) (msg : String)
    (t_run t_fin : Int) :
    process_job s job (.exc msg) t_run t_fin =
      if job.type = "generate_amazon_content" then
        (if job.max_attempts ≤ job.attempts + 1 then
          update_job_status
            (update_job_status s job.id "running" none none
              (some progress_starting) none t_run)
            job.id "failed" none (some ("Worker exception: " ++ msg)) none
            (some (job.attempts + 1)) t_fin
        else
          update_job_status
            (update_job_status s job.id "running" none none
              (some progress_starting) none t_run)
            job.id "queued" none (some ("Worker exception: " ++ msg)) none
            (some (job.attempts + 1)) t_fin)
      else
        update_job_status s job.id "failed" none
          (some ("Unknown job type: " ++ job.type)) none none t_fin := rfl

/-- C2 (amended).  Only a handler that RAISES increments `attempts` (by
exactly one): the worker then marks the job `failed` when the new count
reaches `max_attempts` and otherwise puts it back in `queued` — without
clearing `worker_id`, which `update_job_status` never touches.  A handler
that RETURNS an error (non-zero exit code) is marked `failed` immediately
with `attempts` unchanged and no retry.  Consequently a handler that
always raises runs exactly `max_attempts` times before the job is
permanently `failed`. -/
theorem C2_retry_policy (s : List Job) (snap : JobSnap) (msg : String)
    (rc : Int) (stdout stderr : String) (t1 t2 : Int) (j : Job) (hj : j ∈ s)
    (hid : j.id = snap.id) (hty : snap.type = "generate_amazon_content") :
    (update_row (update_row j "running" none none (some progress_starting) none t1)
        (if snap.max_attempts ≤ snap.attempts + 1 then "failed" else "queued")
        none (some ("Worker exception: " ++ msg)) none (some (snap.attempts + 1)) t2
      ∈ process_job s snap (.exc msg) t1 t2 ∧
     (update_row (update_row j "running" none none (some progress_starting) none t1)
        (if snap.max_attempts ≤ snap.attempts + 1 then "failed" else "queued")
        none (some ("Worker exception: " ++ msg)) none (some (snap.attempts + 1))
        t2).attempts = snap.attempts + 1 ∧
     (update_row (update_row j "running" none none (some progress_starting) none t1)
        (if snap.max_attempts ≤ snap.attempts + 1 then "failed" else "queued")
        none (some ("Worker exception: " ++ msg)) none (some (snap.attempts + 1))
        t2).worker_id = j.worker_id) ∧
    (rc ≠ 0 →
      update_row (update_row j "running" none none (some progress_starting) none t1)
          "failed" none (some (if stderr.isEmpty then "Script failed" else stderr))
          none none t2
        ∈ process_job s snap (.ret rc stdout stderr) t1 t2 ∧
      (update_row (update_row j "running" none none (some progress_starting) none t1)
          "failed" none (some (if stderr.isEmpty then "Script failed" else stderr))
          none none t2).attempts = j.attempts ∧
      (update_row (update_row j "running" none none (some progress_starting) none t1)
          "failed" none (some (if stderr.isEmpty then "Script failed" else stderr))
          none none t2).status = "failed") ∧
    (∀ (wid2 msg2 : String) (t : Int) (m : Int) (s0 : List Job) (n : Nat),
      single_queued s0 0 m → 1 ≤ m →
      ((n : Int) < m →
        single_queued (raise_iter wid2 msg2 t n s0).1 n m ∧
        (raise_iter wid2 msg2 t n s0).2 = n) ∧
      (m ≤ (n : Int) →
        single_failed (raise_iter wid2 msg2 t n s0).1 m m ∧
        ((raise_iter wid2 msg2 t n s0).2 : Int) = m)) := by
  have hid1 : (update_row j "running" none none (some progress_starting) none t1).id
      = snap.id := hid
  have hmem1 : update_row j "running" none none (some progress_starting) none t1 ∈
      update_job_status s snap.id "running" none none (some progress_starting) none t1 :=
    update_row_mem s snap.id "running" none none (some progress_starting) none t1 j hj hid
  refine ⟨⟨?_, rfl, rfl⟩, ?_, ?_⟩
  · rw [process_job_exc_eq, if_pos hty]
    by_cases hcap : snap.max_attempts ≤ snap.attempts + 1
    · rw [if_pos hcap]
      simp only [if_pos hcap]
      exact update_row_mem _ snap.id "failed" none
        (some ("Worker exception: " ++ msg)) none (some (snap.attempts + 1)) t2 _
        hmem1 hid1
    · rw [if_neg hcap]
      simp only [if_neg hcap]
      exact update_row_mem _ snap.id "queued" none
        (some ("Worker exception: " ++ msg)) none (some (snap.attempts + 1)) t2 _
        hmem1 hid1
  · intro hrc
    refine ⟨?_, rfl, rfl⟩
    rw [process_job_ret_eq, if_pos hty, if_neg hrc]
    exact update_row_mem _ snap.id "failed" none
      (some (if stderr.isEmpty then "Script failed" else stderr)) none none t2 _
      hmem1 hid1
  · intro wid2 msg2 t m s0 n hs0 hm
    have := raise_iter_spec wid2 msg2 t m n s0 0 (by omega) hs0
    constructor
    · intro h
      have h0 : (0 : Int) + n < m := by omega
      have hr := this.1 h0
      refine ⟨by simpa using hr.1, hr.2⟩
    · intro h
      have h0 : m ≤ (0 : Int) + n := by omega
      have hr := this.2 h0
      refine ⟨hr.1, by simpa using hr.2⟩

/-- Counterexample for C2 as stated: a claimed job (running, attempts 0,
max_attempts 3, worker "w") whose subprocess RETURNS failure is marked
`failed` with attempts still 0 — not requeued with attempts 1 as the
claim demands; and on the raising path the job is requeued with
`worker_id` still "w", not cleared. -/
theorem C2_counterexample :
    (process_job
        [⟨"a", "generate_amazon_content", "running", 0, 1, some 1, none, none,
          "null", none, none, 0, 3, none, some "w"⟩]
        ⟨"a", "generate_amazon_content", 0, 3⟩ (.ret 1 "out" "boom") 5 6).map
      (fun k => (k.status, k.attempts)) = [("failed", 0)] ∧
    (process_job
        [⟨"a", "generate_amazon_content", "running", 0, 1, some 1, none, none,
          "null", none, none, 0, 3, none, some "w"⟩]
        ⟨"a", "generate_amazon_content", 0, 3⟩ (.exc "x") 5 6).map
      (fun k => (k.status, k.worker_id, k.attempts)) =
      [("queued", some "w", 1)] := by
  constructor
  · decide
  · decide

/-- Witness for C2: five always-raising polls on a fresh job with
max_attempts 3 execute the handler exactly 3 times. -/
theorem C2_witness :
    ((raise_iter "w" "boom" 7 5
        [⟨"a", "generate_amazon_content", "queued", 0, 0, none, none, none,
          "null", none, none, 0, 3, none, none⟩]).2 : Int) = 3 :=
  (((C2_retry_policy
      [⟨"a", "generate_amazon_content", "running", 0, 1, some 1, none, none,
        "null", none, none, 0, 3, none, some "w"⟩]
      ⟨"a", "generate_amazon_content", 0, 3⟩ "m" 1 "o" "e" 5 6
      ⟨"a", "generate_amazon_content", "running", 0, 1, some 1, none, none,
        "null", none, none, 0, 3, none, some "w"⟩
      (List.mem_singleton.mpr rfl) rfl rfl).2.2
    "w" "boom" 7 3
    [⟨"a", "generate_amazon_content", "queued", 0, 0, none, none, none,
      "null", none, none, 0, 3, none, none⟩]
    5
    ⟨⟨"a", "generate_amazon_content", "queued", 0, 0, none, none, none,
      "null", none, none, 0, 3, none, none⟩, rfl, rfl, rfl, rfl, rfl⟩
    (by decide)).2 (by decide)).2

/-! ## C5: state-machine invariants over interleaved executions -/

/-- `update_job_status` preserves the id column of every row. -/
theorem update_ids (s : List Job) (job_id status : String) (result : Option JVal)
    (error : Option String) (progress : Option JVal) (attempts : Option Int)
    (now : Int) :
    (update_job_status s job_id status result error progress attempts now).map
      Job.id = s.map Job.id := by
  unfold update_job_status
  rw [List.map_map]
  apply List.map_congr_left
  intro j _
  by_cases h : j.id = job_id <;> simp [h, update_row]

/-- The claim update preserves the id column of every row. -/
theorem claim_ids (s : List Job) (job_id worker_id : String) (now : Int) :
    ((claim_update s job_id worker_id now).1).map Job.id = s.map Job.id := by
  unfold claim_update
  rw [List.map_map]
  apply List.map_congr_left
  intro j _
  by_cases h : j.id = job_id ∧ j.status = "queued" <;> simp [h, claim_row]

/-- The stale-reclaim sweep preserves the id column of every row. -/
theorem requeue_ids (s : List Job) (timeout_seconds now : Int) :
    (requeue_stale_jobs s timeout_seconds now).map Job.id = s.map Job.id := by
  unfold requeue_stale_jobs
  rw [List.map_map]
  apply List.map_congr_left
  intro j _
  by_cases h : staleTest timeout_seconds now j = true <;> simp [h, requeue_row]

/-- A successful `get_job` returns a view of a stored row with the
requested id, sharing its `id`, `type`, `attempts` and `max_attempts`. -/
theorem get_job_eq_some (s : List Job) (jid : String) (v : JobView)
    (h : get_job s jid = some v) :
    v.id = jid ∧ ∃ j ∈ s, j.id = jid ∧ v.type = j.type ∧
      v.attempts = j.attempts ∧ v.max_attempts = j.max_attempts := by
  unfold get_job at h
  cases hf : s.find? (fun j => j.id == jid) with
  | none => rw [hf] at h; cases h
  | some j =>
    rw [hf] at h
    have hpred := List.find?_some hf
    have hmem : j ∈ s := List.mem_of_find?_eq_some hf
    have hid : j.id = jid := by simpa using hpred
    have hv := Option.some.inj h
    subst hv
    exact ⟨hid, j, hmem, hid, rfl, rfl, rfl⟩

/-- With distinct ids, two rows of the store with the same id coincide. -/
theorem id_inj (s : List Job) (hnd : (s.map Job.id).Nodup) (a b : Job)
    (ha : a ∈ s) (hb : b ∈ s) (h : a.id = b.id) : a = b :=
  List.inj_on_of_nodup_map hnd ha hb h

/-- Preservation of the reachability invariants by one
`update_job_status` call on a job some worker holds, together with any
shrinking / phase-flip of the holding multiset and any growth of the
ghost histories that records the written status. -/
theorem inv_step_update (s : List Job) (holding : List HeldJob)
    (ER ET : List String)
    (hnd : (s.map Job.id).Nodup)
    (hheld : ∀ h ∈ holding, ∀ j ∈ s, j.id = h.snap.id → j.started_at ≠ none)
    (hrow : ∀ j ∈ s,
      (j.status = "queued" ∨ j.status = "running" ∨ j.status = "succeeded" ∨
        j.status = "failed") ∧
      ((j.status = "succeeded" ∨ j.status = "failed") → j.finished_at ≠ none) ∧
      (j.finished_at ≠ none → j.id ∈ ET) ∧
      (j.started_at ≠ none ↔ j.id ∈ ER))
    (sid st : String) (res : Option JVal) (err : Option String)
    (prog : Option JVal) (att : Option Int) (now : Int)
    (hstatus : st = "queued" ∨ st = "running" ∨ st = "succeeded" ∨ st = "failed")
    (hsid_started : ∀ j ∈ s, j.id = sid → j.started_at ≠ none)
    (holding2 : List HeldJob)
    (hsub : ∀ h ∈ holding2, ∃ h0 ∈ holding, h0.snap.id = h.snap.id)
    (ET2 : List String) (hET : ∀ x ∈ ET, x ∈ ET2)
    (hterm : st = "succeeded" ∨ st = "failed" → sid ∈ ET2)
    (ER2 : List String) (hER : ∀ x ∈ ER, x ∈ ER2)
    (hER2 : ∀ x ∈ ER2, x ∈ ER ∨ x = sid) :
    ((update_job_status s sid st res err prog att now).map Job.id).Nodup ∧
    (∀ h ∈ holding2, ∀ j ∈ update_job_status s sid st res err prog att now,
      j.id = h.snap.id → j.started_at ≠ none) ∧
    ∀ j ∈ update_job_status s sid st res err prog att now,
      (j.status = "queued" ∨ j.status = "running" ∨ j.status = "succeeded" ∨
        j.status = "failed") ∧
      ((j.status = "succeeded" ∨ j.status = "failed") → j.finished_at ≠ none) ∧
      (j.finished_at ≠ none → j.id ∈ ET2) ∧
      (j.started_at ≠ none ↔ j.id ∈ ER2) := by
  have hstart_pres : ∀ j : Job,
      (if j.id = sid then update_row j st res err prog att now else j).started_at
        = j.started_at := by
    intro j; by_cases h : j.id = sid <;> simp [h, update_row]
  have hid_pres : ∀ j : Job,
      (if j.id = sid then update_row j st res err prog att now else j).id = j.id := by
    intro j; by_cases h : j.id = sid <;> simp [h, update_row]
  refine ⟨?_, ?_, ?_⟩
  · rw [update_ids]; exact hnd
  · intro h hh j' hj' hid2
    obtain ⟨j, hj, hjeq⟩ := List.mem_map.mp hj'
    rw [← hjeq, hstart_pres j]
    obtain ⟨h0, hh0, hh0id⟩ := hsub h hh
    apply hheld h0 hh0 j hj
    rw [hh0id, ← hid2, ← hjeq, hid_pres j]
  · intro j' hj'
    obtain ⟨j, hj, hjeq⟩ := List.mem_map.mp hj'
    obtain ⟨h1, h2, h3, h4⟩ := hrow j hj
    by_cases hc : j.id = sid
    · rw [if_pos hc] at hjeq
      subst hjeq
      have hstat : (update_row j st res err prog att now).status = st := rfl
      refine ⟨?_, ?_, ?_, ?_⟩
      · rw [hstat]; exact hstatus
      · intro ht
        rw [hstat] at ht
        simp only [update_row, ht, if_pos]
        exact Option.some_ne_none now
      · intro hf
        have hidr : (update_row j st res err prog att now).id = j.id := rfl
        rw [hidr]
        by_cases ht : st = "succeeded" ∨ st = "failed"
        · rw [hc]; exact hterm ht
        · simp only [update_row, if_neg ht] at hf
          exact hET _ (h3 hf)
      · constructor
        · intro _
          rw [show (update_row j st res err prog att now).id = j.id from rfl]
          exact hER _ (h4.mp (hsid_started j hj hc))
        · intro _
          rw [show (update_row j st res err prog att now).started_at
              = j.started_at from rfl]
          exact hsid_started j hj hc
    · rw [if_neg hc] at hjeq
      subst hjeq
      refine ⟨h1, h2, fun hf => hET _ (h3 hf), ?_⟩
      constructor
      · intro hs; exact hER _ (h4.mp hs)
      · intro hs
        rcases hER2 _ hs with hin | heq
        · exact h4.mpr hin
        · exact absurd heq hc

/-- A held entry survives removing one other entry from the holding
list. -/
theorem holding_sub_removal (l1 l2 : List HeldJob) (w : HeldJob)
    (holding : List HeldJob) (hhold : holding = l1 ++ w :: l2) :
    ∀ h ∈ l1 ++ l2, ∃ h0 ∈ holding, h0.snap.id = h.snap.id := by
  intro h hh
  refine ⟨h, ?_, rfl⟩
  rw [hhold]
  rcases List.mem_append.mp hh with h1 | h2
  · exact List.mem_append.mpr (Or.inl h1)
  · exact List.mem_append.mpr (Or.inr (List.mem_cons_of_mem _ h2))

/-- The decomposed entry is in the holding list. -/
theorem holding_mem_of_decomp (l1 l2 : List HeldJob) (w : HeldJob)
    (holding : List HeldJob) (hhold : holding = l1 ++ w :: l2) :
    w ∈ holding := by
  rw [hhold]
  exact List.mem_append.mpr (Or.inr (List.mem_cons_self _ _))

/-- The invariants of every reachable configuration: ids are unique, a
held job's row always has `started_at` set, every row's status is one of
the four, a terminal row has `finished_at` set, a set `finished_at` means
the job has been terminal at some point, and `started_at` is set exactly
for the jobs that have reached `running`. -/
theorem reach_inv (c : WConfig) (hc : Reach c) :
    ((c.store.map Job.id).Nodup) ∧
    (∀ h ∈ c.holding, ∀ j ∈ c.store, j.id = h.snap.id → j.started_at ≠ none) ∧
    ∀ j ∈ c.store,
      (j.status = "queued" ∨ j.status = "running" ∨ j.status = "succeeded" ∨
        j.status = "failed") ∧
      ((j.status = "succeeded" ∨ j.status = "failed") → j.finished_at ≠ none) ∧
      (j.finished_at ≠ none → j.id ∈ c.everTerminal) ∧
      (j.started_at ≠ none ↔ j.id ∈ c.everRunning) := by
  induction hc with
  | init => exact ⟨List.nodup_nil, by simp, by simp⟩
  | @enqueue c hc job_id now job_type payload requested_by max_attempts hfresh
      hfresh2 hfresh3 hfresh4 ih =>
    obtain ⟨ihnd, ihheld, ihrow⟩ := ih
    refine ⟨?_, ?_, ?_⟩
    · show ((enqueue_job c.store job_id now job_type payload requested_by
          max_attempts).map Job.id).Nodup
      unfold enqueue_job
      rw [List.map_append, List.nodup_append]
      refine ⟨ihnd, by simp, ?_⟩
      intro a ha hb
      simp only [List.map_cons, List.map_nil, List.mem_singleton] at hb
      obtain ⟨j, hj, hjid⟩ := List.mem_map.mp ha
      exact hfresh j hj (by rw [hjid, hb])
    · intro h hh j hj hid2
      rcases List.mem_append.mp hj with hjs | hjn
      · exact ihheld h hh j hjs hid2
      · rw [List.mem_singleton] at hjn
        subst hjn
        exact absurd hid2.symm (hfresh4 h hh)
    · intro j hj
      rcases List.mem_append.mp hj with hjs | hjn
      · obtain ⟨a1, a2, a3, a4⟩ := ihrow j hjs
        exact ⟨a1, a2, a3, a4⟩
      · rw [List.mem_singleton] at hjn
        subst hjn
        refine ⟨Or.inl rfl, ?_, ?_, ?_⟩
        · intro h
          rcases h with h | h <;> simp at h
        · intro h
          exact (h rfl).elim
        · constructor
          · intro h
            exact (h rfl).elim
          · intro h
            exact absurd h hfresh2
  | @claim c hc wid now jid v hsel hget ih =>
    obtain ⟨ihnd, ihheld, ihrow⟩ := ih
    have hvid : v.id = jid := (get_job_eq_some _ _ _ hget).1
    obtain ⟨q, hqmem, hqid, hqst, hqmin⟩ := claim_select_spec c.store jid hsel
    have hqueued_of_id : ∀ j ∈ c.store, j.id = jid → j.status = "queued" := by
      intro j hj hid2
      have : j = q := id_inj c.store ihnd j q hj hqmem (by rw [hid2, hqid])
      rw [this]; exact hqst
    have hid_pres : ∀ j : Job,
        ((fun k => if k.id = jid ∧ k.status = "queued" then claim_row k wid now
          else k) j).id = j.id := by
      intro j
      by_cases h : j.id = jid ∧ j.status = "queued" <;> simp [h, claim_row]
    refine ⟨?_, ?_, ?_⟩
    · show (((claim_update c.store jid wid now).1).map Job.id).Nodup
      rw [claim_ids]; exact ihnd
    · intro h hh j' hj' hid2
      obtain ⟨j, hj, hjeq⟩ := List.mem_map.mp hj'
      rcases List.mem_cons.mp hh with rfl | hh2
      · have hid3 : j.id = jid := by
          have hx : j'.id = j.id := by rw [← hjeq]; exact hid_pres j
          have hy : j'.id = v.id := hid2
          rw [← hx, hy, hvid]
        have hqd := hqueued_of_id j hj hid3
        rw [← hjeq, if_pos ⟨hid3, hqd⟩]
        simp [claim_row]
      · have hx : j'.id = j.id := by rw [← hjeq]; exact hid_pres j
        have hold := ihheld h hh2 j hj (by rw [← hx, hid2])
        rw [← hjeq]
        by_cases hcnd : j.id = jid ∧ j.status = "queued"
        · rw [if_pos hcnd]; simp [claim_row]
        · rw [if_neg hcnd]; exact hold
    · intro j' hj'
      obtain ⟨j, hj, hjeq⟩ := List.mem_map.mp hj'
      obtain ⟨h1, h2, h3, h4⟩ := ihrow j hj
      by_cases hcnd : j.id = jid ∧ j.status = "queued"
      · rw [if_pos hcnd] at hjeq
        subst hjeq
        refine ⟨Or.inr (Or.inl rfl), ?_, ?_, ?_⟩
        · intro hcon
          rcases hcon with hcon | hcon <;> simp [claim_row] at hcon
        · intro hf
          exact h3 hf
        · constructor
          · intro _
            show (claim_row j wid now).id ∈ jid :: c.everRunning
            have : (claim_row j wid now).id = j.id := rfl
            rw [this, hcnd.1]
            exact List.mem_cons_self _ _
          · intro _
            simp [claim_row]
      · rw [if_neg hcnd] at hjeq
        subst hjeq
        refine ⟨h1, h2, h3, ?_⟩
        constructor
        · intro hs
          exact List.mem_cons_of_mem _ (h4.mp hs)
        · intro hs
          rcases List.mem_cons.mp hs with heq | hin
          · exact absurd ⟨heq, hqueued_of_id j hj heq⟩ hcnd
          · exact h4.mpr hin
  | @begin_running c hc w l1 l2 now hhold hstarted htype ih =>
    obtain ⟨ihnd, ihheld, ihrow⟩ := ih
    have hw := holding_mem_of_decomp l1 l2 w c.holding hhold
    refine inv_step_update c.store c.holding c.everRunning c.everTerminal ihnd
      ihheld ihrow w.snap.id "running" none none (some progress_starting) none
      now (Or.inr (Or.inl rfl)) (fun j hj hid => ihheld w hw j hj hid)
      (l1 ++ { w with started := true } :: l2) ?_ c.everTerminal (fun x hx => hx)
      (fun hcon => absurd hcon (by decide)) (w.snap.id :: c.everRunning)
      (fun x hx => List.mem_cons_of_mem _ hx)
      (fun x hx => (List.mem_cons.mp hx).elim (fun h => Or.inr h)
        (fun h => Or.inl h))
    intro h hh
    rcases List.mem_append.mp hh with h1 | h2
    · refine ⟨h, ?_, rfl⟩
      rw [hhold]
      exact List.mem_append.mpr (Or.inl h1)
    · rcases List.mem_cons.mp h2 with rfl | h3
      · exact ⟨w, hw, rfl⟩
      · refine ⟨h, ?_, rfl⟩
        rw [hhold]
        exact List.mem_append.mpr (Or.inr (List.mem_cons_of_mem _ h3))
  | @finish_success c hc w l1 l2 stdout now hhold hstarted ih =>
    obtain ⟨ihnd, ihheld, ihrow⟩ := ih
    have hw := holding_mem_of_decomp l1 l2 w c.holding hhold
    exact inv_step_update c.store c.holding c.everRunning c.everTerminal ihnd
      ihheld ihrow w.snap.id "succeeded"
      (some (JVal.jobj [("output".toList, JVal.jstr stdout.toList)])) none none
      none now (Or.inr (Or.inr (Or.inl rfl)))
      (fun j hj hid => ihheld w hw j hj hid) (l1 ++ l2)
      (holding_sub_removal l1 l2 w c.holding hhold)
      (w.snap.id :: c.everTerminal) (fun x hx => List.mem_cons_of_mem _ hx)
      (fun _ => List.mem_cons_self _ _) c.everRunning (fun x hx => hx)
      (fun x hx => Or.inl hx)
  | @finish_ret_error c hc w l1 l2 stderr now hhold hstarted ih =>
    obtain ⟨ihnd, ihheld, ihrow⟩ := ih
    have hw := holding_mem_of_decomp l1 l2 w c.holding hhold
    exact inv_step_update c.store c.holding c.everRunning c.everTerminal ihnd
      ihheld ihrow w.snap.id "failed" none
      (some (if stderr.isEmpty then "Script failed" else stderr)) none none now
      (Or.inr (Or.inr (Or.inr rfl)))
      (fun j hj hid => ihheld w hw j hj hid) (l1 ++ l2)
      (holding_sub_removal l1 l2 w c.holding hhold)
      (w.snap.id :: c.everTerminal) (fun x hx => List.mem_cons_of_mem _ hx)
      (fun _ => List.mem_cons_self _ _) c.everRunning (fun x hx => hx)
      (fun x hx => Or.inl hx)
  | @finish_exc_fail c hc w l1 l2 msg now hhold hmax ih =>
    obtain ⟨ihnd, ihheld, ihrow⟩ := ih
    have hw := holding_mem_of_decomp l1 l2 w c.holding hhold
    exact inv_step_update c.store c.holding c.everRunning c.everTerminal ihnd
      ihheld ihrow w.snap.id "failed" none
      (some ("Worker exception: " ++ msg)) none (some (w.snap.attempts + 1)) now
      (Or.inr (Or.inr (Or.inr rfl)))
      (fun j hj hid => ihheld w hw j hj hid) (l1 ++ l2)
      (holding_sub_removal l1 l2 w c.holding hhold)
      (w.snap.id :: c.everTerminal) (fun x hx => List.mem_cons_of_mem _ hx)
      (fun _ => List.mem_cons_self _ _) c.everRunning (fun x hx => hx)
      (fun x hx => Or.inl hx)
  | @finish_exc_requeue c hc w l1 l2 msg now hhold hlt ih =>
    obtain ⟨ihnd, ihheld, ihrow⟩ := ih
    have hw := holding_mem_of_decomp l1 l2 w c.holding hhold
    exact inv_step_update c.store c.holding c.everRunning c.everTerminal ihnd
      ihheld ihrow w.snap.id "queued" none
      (some ("Worker exception: " ++ msg)) none (some (w.snap.attempts + 1)) now
      (Or.inl rfl)
      (fun j hj hid => ihheld w hw j hj hid) (l1 ++ l2)
      (holding_sub_removal l1 l2 w c.holding hhold)
      c.everTerminal (fun x hx => hx)
      (fun hcon => absurd hcon (by decide)) c.everRunning (fun x hx => hx)
      (fun x hx => Or.inl hx)
  | @finish_unknown c hc w l1 l2 now hhold htype ih =>
    obtain ⟨ihnd, ihheld, ihrow⟩ := ih
    have hw := holding_mem_of_decomp l1 l2 w c.holding hhold
    exact inv_step_update c.store c.holding c.everRunning c.everTerminal ihnd
      ihheld ihrow w.snap.id "failed" none
      (some ("Unknown job type: " ++ w.snap.type)) none none now
      (Or.inr (Or.inr (Or.inr rfl)))
      (fun j hj hid => ihheld w hw j hj hid) (l1 ++ l2)
      (holding_sub_removal l1 l2 w c.holding hhold)
      (w.snap.id :: c.everTerminal) (fun x hx => List.mem_cons_of_mem _ hx)
      (fun _ => List.mem_cons_self _ _) c.everRunning (fun x hx => hx)
      (fun x hx => Or.inl hx)
  | @reclaim c hc timeout_seconds now ih =>
    obtain ⟨ihnd, ihheld, ihrow⟩ := ih
    refine ⟨?_, ?_, ?_⟩
    · show ((requeue_stale_jobs c.store timeout_seconds now).map Job.id).Nodup
      rw [requeue_ids]; exact ihnd
    · intro h hh j' hj' hid2
      obtain ⟨j, hj, hjeq⟩ := List.mem_map.mp hj'
      have hx : j'.started_at = j.started_at := by
        rw [← hjeq]
        by_cases h2 : staleTest timeout_seconds now j = true <;>
          simp [h2, requeue_row]
      have hy : j'.id = j.id := by
        rw [← hjeq]
        by_cases h2 : staleTest timeout_seconds now j = true <;>
          simp [h2, requeue_row]
      rw [hx]
      exact ihheld h hh j hj (by rw [← hy]; exact hid2)
    · intro j' hj'
      obtain ⟨j, hj, hjeq⟩ := List.mem_map.mp hj'
      obtain ⟨h1, h2, h3, h4⟩ := ihrow j hj
      by_cases hc2 : staleTest timeout_seconds now j = true
      · rw [if_pos hc2] at hjeq
        subst hjeq
        refine ⟨Or.inl rfl, ?_, ?_, ?_⟩
        · intro hcon
          rcases hcon with hcon | hcon <;> simp [requeue_row] at hcon
        · intro hf
          exact h3 hf
        · exact h4
      · rw [if_neg hc2] at hjeq
        subst hjeq
        exact ⟨h1, h2, h3, h4⟩

/-- C5 (amended).  In every reachable configuration, every job's status
is one of queued / running / succeeded / failed; a job in a terminal
status has `finished_at` set; a set `finished_at` implies the job has
been terminal at some point (but NOT that it is terminal now — a worker's
retry-requeue racing a stale reclaim can return a finished job to
`queued` with `finished_at` still set, so the claimed "iff" fails); and
`started_at` is set exactly when the job has reached `running`. -/
theorem C5_state_invariants (c : WConfig) (hc : Reach c) (j : Job)
    (hj : j ∈ c.store) :
    (j.status = "queued" ∨ j.status = "running" ∨ j.status = "succeeded" ∨
      j.status = "failed") ∧
    ((j.status = "succeeded" ∨ j.status = "failed") → j.finished_at ≠ none) ∧
    (j.finished_at ≠ none → j.id ∈ c.everTerminal) ∧
    (j.started_at ≠ none ↔ j.id ∈ c.everRunning) :=
  (reach_inv c hc).2.2 j hj

/-- Witness for C5 at the configuration reached by one enqueue. -/
theorem C5_witness :
    ((⟨"j1", "t", "queued", 0, 0, none, none, none, "null", none, none, 0, 3,
        none, none⟩ : Job).status = "queued" ∨
      (⟨"j1", "t", "queued", 0, 0, none, none, none, "null", none, none, 0, 3,
        none, none⟩ : Job).status = "running" ∨
      (⟨"j1", "t", "queued", 0, 0, none, none, none, "null", none, none, 0, 3,
        none, none⟩ : Job).status = "succeeded" ∨
      (⟨"j1", "t", "queued", 0, 0, none, none, none, "null", none, none, 0, 3,
        none, none⟩ : Job).status = "failed") ∧
    (((⟨"j1", "t", "queued", 0, 0, none, none, none, "null", none, none, 0, 3,
        none, none⟩ : Job).status = "succeeded" ∨
      (⟨"j1", "t", "queued", 0, 0, none, none, none, "null", none, none, 0, 3,
        none, none⟩ : Job).status = "failed") →
      (⟨"j1", "t", "queued", 0, 0, none, none, none, "null", none, none, 0, 3,
        none, none⟩ : Job).finished_at ≠ none) ∧
    ((⟨"j1", "t", "queued", 0, 0, none, none, none, "null", none, none, 0, 3,
        none, none⟩ : Job).finished_at ≠ none →
      (⟨"j1", "t", "queued", 0, 0, none, none, none, "null", none, none, 0, 3,
        none, none⟩ : Job).id ∈ ([] : List String)) ∧
    ((⟨"j1", "t", "queued", 0, 0, none, none, none, "null", none, none, 0, 3,
        none, none⟩ : Job).started_at ≠ none ↔
      (⟨"j1", "t", "queued", 0, 0, none, none, none, "null", none, none, 0, 3,
        none, none⟩ : Job).id ∈ ([] : List String)) :=
  C5_state_invariants
    ⟨enqueue_job [] "j1" 0 "t" JVal.jnull none 3, [], [], []⟩
    (Reach.enqueue Reach.init "j1" 0 "t" JVal.jnull none 3 (by simp)
      (by simp) (by simp) (by simp))
    ⟨"j1", "t", "queued", 0, 0, none, none, none, "null", none, none, 0, 3,
      none, none⟩
    (by decide)

/-- Counterexample for C5 as stated: the "finished_at iff terminal"
invariant fails on a reachable interleaving.  Worker A claims the job and
starts it; the stale reclaimer requeues it; worker B claims it, starts
it, and its subprocess fails, marking the job `failed` with `finished_at`
set; then worker A's handler finally raises and A's retry-requeue puts
the job back to `queued` — `finished_at` is still set on a queued job. -/
theorem C5_counterexample :
    Reach ⟨[⟨"j1", "generate_amazon_content", "queued", 0, 24, some 21, some 23,
            none, "null", none, some "Worker exception: crash", 1, 3,
            some (dumps progress_starting), some "wB"⟩],
           [], ["j1", "j1", "j1", "j1"], ["j1"]⟩ ∧
    ([⟨"j1", "generate_amazon_content", "queued", 0, 24, some 21, some 23,
        none, "null", none, some "Worker exception: crash", 1, 3,
        some (dumps progress_starting), some "wB"⟩] : List Job).any
      (fun j => j.status == "queued" && j.finished_at.isSome) = true := by
  constructor
  · have h0 : Reach ⟨[], [], [], []⟩ := Reach.init
    have h1 : Reach ⟨[⟨"j1", "generate_amazon_content", "queued", 0, 0, none,
        none, none, "null", none, none, 0, 3, none, none⟩], [], [], []⟩ :=
      Reach.enqueue h0 "j1" 0 "generate_amazon_content" JVal.jnull none 3
        (by simp) (by simp) (by simp) (by simp)
    have h2 : Reach ⟨[⟨"j1", "generate_amazon_content", "running", 0, 1,
        some 1, none, none, "null", none, none, 0, 3, none, some "wA"⟩],
        [⟨"wA", ⟨"j1", "generate_amazon_content", 0, 3⟩, false⟩],
        ["j1"], []⟩ :=
      Reach.claim h1 "wA" 1 "j1"
        ⟨"j1", "generate_amazon_content", "running", 0, 1, some 1, none, none,
          some JVal.jnull, none, none, 0, 3, none, some "wA"⟩
        rfl rfl
    have h3 : Reach ⟨[⟨"j1", "generate_amazon_content", "running", 0, 2,
        some 1, none, none, "null", none, none, 0, 3,
        some (dumps progress_starting), some "wA"⟩],
        [⟨"wA", ⟨"j1", "generate_amazon_content", 0, 3⟩, true⟩],
        ["j1", "j1"], []⟩ :=
      Reach.begin_running h2 ⟨"wA", ⟨"j1", "generate_amazon_content", 0, 3⟩,
        false⟩ [] [] 2 rfl rfl rfl
    have h4 : Reach ⟨[⟨"j1", "generate_amazon_content", "queued", 0, 20,
        some 1, none, none, "null", none, none, 0, 3,
        some (dumps progress_starting), none⟩],
        [⟨"wA", ⟨"j1", "generate_amazon_content", 0, 3⟩, true⟩],
        ["j1", "j1"], []⟩ :=
      Reach.reclaim h3 10 20
    have h5 : Reach ⟨[⟨"j1", "generate_amazon_content", "running", 0, 21,
        some 21, none, none, "null", none, none, 0, 3,
        some (dumps progress_starting), some "wB"⟩],
        [⟨"wB", ⟨"j1", "generate_amazon_content", 0, 3⟩, false⟩,
         ⟨"wA", ⟨"j1", "generate_amazon_content", 0, 3⟩, true⟩],
        ["j1", "j1", "j1"], []⟩ :=
      Reach.claim h4 "wB" 21 "j1"
        ⟨"j1", "generate_amazon_content", "running", 0, 21, some 21, none,
          none, some JVal.jnull, none, none, 0, 3, some progress_starting,
          some "wB"⟩
        rfl rfl
    have h6 : Reach ⟨[⟨"j1", "generate_amazon_content", "running", 0, 22,
        some 21, none, none, "null", none, none, 0, 3,
        some (dumps progress_starting), some "wB"⟩],
        [⟨"wB", ⟨"j1", "generate_amazon_content", 0, 3⟩, true⟩,
         ⟨"wA", ⟨"j1", "generate_amazon_content", 0, 3⟩, true⟩],
        ["j1", "j1", "j1", "j1"], []⟩ :=
      Reach.begin_running h5 ⟨"wB", ⟨"j1", "generate_amazon_content", 0, 3⟩,
        false⟩ [] [⟨"wA", ⟨"j1", "generate_amazon_content", 0, 3⟩, true⟩] 22
        rfl rfl rfl
    have h7 : Reach ⟨[⟨"j1", "generate_amazon_content", "failed", 0, 23,
        some 21, some 23, none, "null", none, some "boom", 0, 3,
        some (dumps progress_starting), some "wB"⟩],
        [⟨"wA", ⟨"j1", "generate_amazon_content", 0, 3⟩, true⟩],
        ["j1", "j1", "j1", "j1"], ["j1"]⟩ :=
      Reach.finish_ret_error h6 ⟨"wB", ⟨"j1", "generate_amazon_content", 0, 3⟩,
        true⟩ [] [⟨"wA", ⟨"j1", "generate_amazon_content", 0, 3⟩, true⟩]
        "boom" 23 rfl rfl
    exact Reach.finish_exc_requeue h7
      ⟨"wA", ⟨"j1", "generate_amazon_content", 0, 3⟩, true⟩ [] [] "crash" 24
      rfl (by decide)
  · decide

/-! ## C8: payload round trip through the serializer and parser -/

/-- Character facts for decimal digits. -/
theorem digit_char_ok : ∀ d, d < 10 →
    isDigitChar (Char.ofNat (48 + d)) = true ∧
    digitVal (Char.ofNat (48 + d)) = d ∧
    isWsChar (Char.ofNat (48 + d)) = false := by decide

/-- A digit character is not whitespace and not a structural character. -/
theorem digit_head_facts (c : Char) (h : isDigitChar c = true) :
    isWsChar c = false ∧ c ≠ ']' ∧ c ≠ rCurly ∧ c ≠ ',' ∧ c ≠ 'n' ∧
    c ≠ 't' ∧ c ≠ 'f' ∧ c ≠ qMark ∧ c ≠ '[' ∧ c ≠ lCurly ∧ c ≠ '-' ∧
    c ≠ ':' := by
  simp only [isDigitChar, Bool.and_eq_true, decide_eq_true_eq] at h
  refine ⟨?_, ?_, ?_, ?_, ?_, ?_, ?_, ?_, ?_, ?_, ?_, ?_⟩
  · simp only [isWsChar, Bool.or_eq_false_iff, decide_eq_false_iff_not]
    omega
  all_goals intro heq
  all_goals rw [heq] at h
  all_goals revert h
  all_goals decide

/-- The decimal rendering is never empty. -/
theorem natChars_ne_nil (n : Nat) : natChars n ≠ [] := by
  unfold natChars
  by_cases h : n = 0
  · simp [h]
  · rw [if_neg h]
    simp only [ne_eq, List.map_eq_nil_iff, List.reverse_eq_nil_iff]
    exact Nat.digits_ne_nil_iff_ne_zero.mpr h

/-- Every character of the decimal rendering is a digit. -/
theorem natChars_all_digits (n : Nat) : ∀ c ∈ natChars n, isDigitChar c = true := by
  intro c hc
  unfold natChars at hc
  by_cases h : n = 0
  · rw [if_pos h] at hc
    rw [List.mem_singleton] at hc
    subst hc
    decide
  · rw [if_neg h] at hc
    obtain ⟨d, hd, rfl⟩ := List.mem_map.mp hc
    rw [List.mem_reverse] at hd
    exact (digit_char_ok d (Nat.digits_lt_base (by norm_num) hd)).1

/-- `takeWhile` and `dropWhile` split an all-true prefix exactly. -/
theorem takeWhile_all (p : Char → Bool) (xs ys : List Char)
    (h1 : ∀ x ∈ xs, p x = true) (h2 : ∀ y t, ys = y :: t → p y = false) :
    (xs ++ ys).takeWhile p = xs ∧ (xs ++ ys).dropWhile p = ys := by
  induction xs with
  | nil =>
    cases hy : ys with
    | nil => simp
    | cons y t =>
      have := h2 y t hy
      simp [List.takeWhile_cons, List.dropWhile_cons, this]
  | cons x t ih =>
    have hx := h1 x (List.mem_cons_self _ _)
    have := ih (fun a ha => h1 a (List.mem_cons_of_mem _ ha))
    simp only [List.cons_append, List.takeWhile_cons, List.dropWhile_cons, hx,
      if_pos]
    exact ⟨by rw [this.1], this.2⟩

/-- Folding the decimal digits of `n` back together recovers `n`. -/
theorem foldl_digits (l : List Nat) (hd : ∀ d ∈ l, d < 10) : ∀ a : Nat,
    List.foldl (fun x c => 10 * x + digitVal c) a
      ((l.reverse).map fun d => Char.ofNat (48 + d)) =
    a * 10 ^ l.length + Nat.ofDigits 10 l := by
  induction l with
  | nil => intro a; simp [Nat.ofDigits_nil]
  | cons d t ih =>
    intro a
    have hdd := (digit_char_ok d (hd d (List.mem_cons_self _ _))).2.1
    rw [List.reverse_cons, List.map_append, List.foldl_append]
    rw [ih (fun x hx => hd x (List.mem_cons_of_mem _ hx)) a]
    simp only [List.map_cons, List.map_nil, List.foldl_cons, List.foldl_nil,
      hdd, Nat.ofDigits_cons, List.length_cons]
    ring

/-- `digitsVal` inverts `natChars`. -/
theorem digitsVal_natChars (n : Nat) : digitsVal (natChars n) = n := by
  by_cases h : n = 0
  · subst h; decide
  · unfold digitsVal natChars
    rw [if_neg h]
    rw [foldl_digits (Nat.digits 10 n)
      (fun d hd => Nat.digits_lt_base (by norm_num) hd) 0]
    simp [Nat.ofDigits_digits]

/-- `parseNat` inverts `natChars` when what follows cannot extend the
literal. -/
theorem parseNat_natChars (n : Nat) (rest : List Char) (hrest : GoodRest rest) :
    parseNat (natChars n ++ rest) = some (n, rest) := by
  have h2 : ∀ y t, rest = y :: t → isDigitChar y = false := by
    intro y t hy
    rw [hy] at hrest
    exact hrest
  have h := takeWhile_all isDigitChar (natChars n) rest (natChars_all_digits n) h2
  unfold parseNat
  simp only [h.1, h.2]
  rw [if_neg (by simpa using natChars_ne_nil n)]
  rw [digitsVal_natChars]

/-- Each character of the serializer, escaped and re-parsed, decodes to
itself; fuel one per character suffices. -/
theorem parseStrBody_escape : ∀ (s : List Char) (f : Nat) (rest : List Char),
    s.length < f →
    parseStrBody f (escapeStr s ++ (qMark :: rest)) = some (s, rest) := by
  intro s
  induction s with
  | nil =>
    intro f rest hf
    match f with
    | g + 1 => simp [escapeStr, parseStrBody]
  | cons c t ih =>
    intro f rest hf
    match f with
    | g + 1 =>
      have hg : t.length < g := by simpa using hf
      have hrec := ih g rest hg
      show parseStrBody (g + 1) ((escapeChar c ++ escapeStr t) ++ (qMark :: rest))
        = some (c :: t, rest)
      rw [List.append_assoc]
      unfold escapeChar
      by_cases h1 : c = qMark
      · subst h1
        rw [if_pos rfl]
        simp [parseStrBody, hrec, show bSlash ≠ qMark from by decide]
      · rw [if_neg h1]
        by_cases h2 : c = bSlash
        · subst h2
          rw [if_pos rfl]
          simp [parseStrBody, hrec, show bSlash ≠ qMark from by decide]
        · rw [if_neg h2]
          by_cases h3 : c.toNat = 8
          · rw [if_pos h3]
            have hch3 : c = Char.ofNat 8 := by rw [← h3, Char.ofNat_toNat]
            subst hch3
            simp [parseStrBody, hrec,
              show bSlash ≠ qMark from by decide,
              show ('b' : Char) ≠ qMark from by decide,
              show ('b' : Char) ≠ bSlash from by decide,
              show ('b' : Char) ≠ '/' from by decide]
          · rw [if_neg h3]
            by_cases h4 : c.toNat = 9
            · rw [if_pos h4]
              have hch4 : c = Char.ofNat 9 := by rw [← h4, Char.ofNat_toNat]
              subst hch4
              simp [parseStrBody, hrec,
                show bSlash ≠ qMark from by decide,
                show ('t' : Char) ≠ qMark from by decide,
                show ('t' : Char) ≠ bSlash from by decide,
                show ('t' : Char) ≠ '/' from by decide,
                show ('t' : Char) ≠ 'b' from by decide]
            · rw [if_neg h4]
              by_cases h5 : c.toNat = 10
              · rw [if_pos h5]
                have hch5 : c = Char.ofNat 10 := by rw [← h5, Char.ofNat_toNat]
                subst hch5
                simp [parseStrBody, hrec,
                  show bSlash ≠ qMark from by decide,
                  show ('n' : Char) ≠ qMark from by decide,
                  show ('n' : Char) ≠ bSlash from by decide,
                  show ('n' : Char) ≠ '/' from by decide,
                  show ('n' : Char) ≠ 'b' from by decide,
                  show ('n' : Char) ≠ 't' from by decide]
              · rw [if_neg h5]
                by_cases h6 : c.toNat = 12
                · rw [if_pos h6]
                  have hch6 : c = Char.ofNat 12 := by rw [← h6, Char.ofNat_toNat]
                  subst hch6
                  simp [parseStrBody, hrec,
                    show bSlash ≠ qMark from by decide,
                    show ('f' : Char) ≠ qMark from by decide,
                    show ('f' : Char) ≠ bSlash from by decide,
                    show ('f' : Char) ≠ '/' from by decide,
                    show ('f' : Char) ≠ 'b' from by decide,
                    show ('f' : Char) ≠ 't' from by decide,
                    show ('f' : Char) ≠ 'n' from by decide]
                · rw [if_neg h6]
                  by_cases h7 : c.toNat = 13
                  · rw [if_pos h7]
                    have hch7 : c = Char.ofNat 13 := by rw [← h7, Char.ofNat_toNat]
                    subst hch7
                    simp [parseStrBody, hrec,
                      show bSlash ≠ qMark from by decide,
                      show ('r' : Char) ≠ qMark from by decide,
                      show ('r' : Char) ≠ bSlash from by decide,
                      show ('r' : Char) ≠ '/' from by decide,
                      show ('r' : Char) ≠ 'b' from by decide,
                      show ('r' : Char) ≠ 't' from by decide,
                      show ('r' : Char) ≠ 'n' from by decide,
                      show ('r' : Char) ≠ 'f' from by decide]
                  · rw [if_neg h7]
                    by_cases h8 : c.toNat < 32
                    · rw [if_pos h8]
                      have hhex := (by decide : ∀ n, n < 32 →
                        hexVal (hexDigitChar (n / 4096 % 16)) = some (n / 4096 % 16) ∧
                        hexVal (hexDigitChar (n / 256 % 16)) = some (n / 256 % 16) ∧
                        hexVal (hexDigitChar (n / 16 % 16)) = some (n / 16 % 16) ∧
                        hexVal (hexDigitChar (n % 16)) = some (n % 16) ∧
                        4096 * (n / 4096 % 16) + 256 * (n / 256 % 16) +
                          16 * (n / 16 % 16) + n % 16 = n) c.toNat h8
                      obtain ⟨e1, e2, e3, e4, e5⟩ := hhex
                      have : Char.ofNat (4096 * (c.toNat / 4096 % 16) +
                          256 * (c.toNat / 256 % 16) + 16 * (c.toNat / 16 % 16) +
                          c.toNat % 16) = c := by rw [e5, Char.ofNat_toNat]
                      simp [parseStrBody, hex4, hrec, e1, e2, e3, e4, this,
                        show bSlash ≠ qMark from by decide,
                        show ('u' : Char) ≠ qMark from by decide,
                        show ('u' : Char) ≠ bSlash from by decide,
                        show ('u' : Char) ≠ '/' from by decide,
                        show ('u' : Char) ≠ 'b' from by decide,
                        show ('u' : Char) ≠ 't' from by decide,
                        show ('u' : Char) ≠ 'n' from by decide,
                        show ('u' : Char) ≠ 'f' from by decide,
                        show ('u' : Char) ≠ 'r' from by decide]
                    · rw [if_neg h8]
                      simp [parseStrBody, hrec, h1, h2]

/-- Escaping a character emits at least one character. -/
theorem escapeChar_len (c : Char) : 1 ≤ (escapeChar c).length := by
  unfold escapeChar
  split_ifs <;> simp [hex4]

/-- Escaping cannot shrink a string. -/
theorem escapeStr_len (s : List Char) : s.length ≤ (escapeStr s).length := by
  induction s with
  | nil => simp [escapeStr]
  | cons c t ih =>
    have := escapeChar_len c
    simp only [escapeStr, List.length_append, List.length_cons]
    omega

/-- Whitespace skipping consumes exactly an all-whitespace prefix. -/
theorem skipWs_append_all (ws l : List Char) (hws : AllWs ws)
    (hl : ∀ c t, l = c :: t → isWsChar c = false) : skipWs (ws ++ l) = l := by
  induction ws with
  | nil =>
    simp only [List.nil_append]
    cases hc : l with
    | nil => rfl
    | cons c t => simp [skipWs, List.dropWhile_cons, hl c t hc]
  | cons w tws ih =>
    have hw := hws w (List.mem_cons_self _ _)
    simp only [List.cons_append, skipWs, List.dropWhile_cons, hw, if_pos]
    exact ih fun a ha => hws a (List.mem_cons_of_mem _ ha)

/-- The serializer's output starts with a printable, non-structural
character. -/
theorem dumpsV_shape (v : JVal) : ∃ c cs, dumpsV v = c :: cs ∧
    isWsChar c = false ∧ c ≠ ']' := by
  cases v with
  | jnull => exact ⟨'n', _, rfl, by decide, by decide⟩
  | jbool b =>
    cases b with
    | false => exact ⟨'f', _, rfl, by decide, by decide⟩
    | true => exact ⟨'t', _, rfl, by decide, by decide⟩
  | jnum n =>
    show ∃ c cs, intChars n = c :: cs ∧ isWsChar c = false ∧ c ≠ ']'
    unfold intChars
    by_cases hn : n < 0
    · rw [if_pos hn]
      exact ⟨'-', _, rfl, by decide, by decide⟩
    · rw [if_neg hn]
      cases hc : natChars n.natAbs with
      | nil => exact absurd hc (natChars_ne_nil _)
      | cons c cs =>
        have hd : isDigitChar c = true := by
          apply natChars_all_digits
          rw [hc]
          exact List.mem_cons_self _ _
        have := digit_head_facts c hd
        exact ⟨c, cs, rfl, this.1, this.2.1⟩
  | jstr s => exact ⟨qMark, _, rfl, by decide, by decide⟩
  | jarr xs =>
    cases xs with
    | nil => exact ⟨'[', _, rfl, by decide, by decide⟩
    | cons x t => exact ⟨'[', _, rfl, by decide, by decide⟩
  | jobj kvs =>
    cases kvs with
    | nil => exact ⟨lCurly, _, rfl, by decide, by decide⟩
    | cons kv t => exact ⟨lCurly, _, rfl, by decide, by decide⟩

/-- The serializer never emits an empty rendering. -/
theorem dumpsV_len (v : JVal) : 1 ≤ (dumpsV v).length := by
  obtain ⟨c, cs, he, _, _⟩ := dumpsV_shape v
  simp [he]

/-- What follows a value inside an array rendering cannot extend a
number literal. -/
theorem dumpsItems_goodrest (xs : List JVal) (rest : List Char) :
    GoodRest (dumpsItems xs ++ rest) := by
  cases xs with
  | nil => show isDigitChar ']' = false; decide
  | cons y ys => show isDigitChar ',' = false; decide

/-- What follows a value inside an object rendering cannot extend a
number literal. -/
theorem dumpsMembers_goodrest (kvs : List (List Char × JVal)) (rest : List Char) :
    GoodRest (dumpsMembers kvs ++ rest) := by
  cases kvs with
  | nil => show isDigitChar rCurly = false; decide
  | cons kv t => show isDigitChar ',' = false; decide

/-- The rendering of an array tail never starts with whitespace. -/
theorem skipWs_dumpsItems (xs : List JVal) (rest : List Char) :
    skipWs (dumpsItems xs ++ rest) = dumpsItems xs ++ rest := by
  cases xs with
  | nil =>
    simp [dumpsItems, skipWs, List.dropWhile_cons,
      show isWsChar ']' = false from by decide]
  | cons y ys =>
    simp [dumpsItems, skipWs, List.dropWhile_cons,
      show isWsChar ',' = false from by decide]

/-- The rendering of an object tail never starts with whitespace. -/
theorem skipWs_dumpsMembers (kvs : List (List Char × JVal)) (rest : List Char) :
    skipWs (dumpsMembers kvs ++ rest) = dumpsMembers kvs ++ rest := by
  cases kvs with
  | nil =>
    show skipWs (rCurly :: rest) = rCurly :: rest
    simp [skipWs, List.dropWhile_cons, show isWsChar rCurly = false from by decide]
  | cons kv t =>
    simp [dumpsMembers, skipWs, List.dropWhile_cons,
      show isWsChar ',' = false from by decide]

/-- The parser recovers `null` from its rendering. -/
theorem parseVal_dumps_null (g : Nat) (ws rest : List Char) (hws : AllWs ws) :
    parseVal (g + 1) (ws ++ dumpsV JVal.jnull ++ rest) =
      some (JVal.jnull, rest) := by
  have hskip : skipWs (ws ++ (dumpsV JVal.jnull ++ rest)) =
      dumpsV JVal.jnull ++ rest := by
    apply skipWs_append_all _ _ hws
    intro c t h
    obtain ⟨c0, cs0, he, hnw, hnb⟩ := dumpsV_shape JVal.jnull
    rw [he] at h
    simp only [List.cons_append] at h
    obtain ⟨rfl, -⟩ := List.cons.inj h
    exact hnw
  rw [List.append_assoc]
  simp only [parseVal, hskip]
  simp [dumpsV]

/-- The parser recovers a boolean from its rendering. -/
theorem parseVal_dumps_bool (g : Nat) (b : Bool) (ws rest : List Char)
    (hws : AllWs ws) :
    parseVal (g + 1) (ws ++ dumpsV (JVal.jbool b) ++ rest) =
      some (JVal.jbool b, rest) := by
  have hskip : skipWs (ws ++ (dumpsV (JVal.jbool b) ++ rest)) =
      dumpsV (JVal.jbool b) ++ rest := by
    apply skipWs_append_all _ _ hws
    intro c t h
    obtain ⟨c0, cs0, he, hnw, hnb⟩ := dumpsV_shape (JVal.jbool b)
    rw [he] at h
    simp only [List.cons_append] at h
    obtain ⟨rfl, -⟩ := List.cons.inj h
    exact hnw
  rw [List.append_assoc]
  simp only [parseVal, hskip]
  cases b <;> simp [dumpsV]

/-- The parser recovers an integer from its rendering. -/
theorem parseVal_dumps_num (g : Nat) (n : Int) (ws rest : List Char)
    (hws : AllWs ws) (hrest : GoodRest rest) :
    parseVal (g + 1) (ws ++ dumpsV (JVal.jnum n) ++ rest) =
      some (JVal.jnum n, rest) := by
  have hskip : skipWs (ws ++ (dumpsV (JVal.jnum n) ++ rest)) =
      dumpsV (JVal.jnum n) ++ rest := by
    apply skipWs_append_all _ _ hws
    intro c t h
    obtain ⟨c0, cs0, he, hnw, hnb⟩ := dumpsV_shape (JVal.jnum n)
    rw [he] at h
    simp only [List.cons_append] at h
    obtain ⟨rfl, -⟩ := List.cons.inj h
    exact hnw
  rw [List.append_assoc]
  simp only [parseVal, hskip]
  rw [show dumpsV (JVal.jnum n) = intChars n from rfl]
  unfold intChars
  by_cases hn : n < 0
  · rw [if_pos hn]
    simp only [List.cons_append]
    rw [if_neg (by decide : ¬('-' : Char) = 'n'),
      if_neg (by decide : ¬('-' : Char) = 't'),
      if_neg (by decide : ¬('-' : Char) = 'f'),
      if_neg (show ¬('-' : Char) = qMark from by decide),
      if_neg (by decide : ¬('-' : Char) = '['),
      if_neg (show ¬('-' : Char) = lCurly from by decide)]
    rw [if_pos trivial, parseNat_natChars _ _ hrest]
    have : ((n.natAbs : Nat) : Int) = -n := by omega
    simp [this]
  · rw [if_neg hn]
    cases hc : natChars n.natAbs with
    | nil => exact absurd hc (natChars_ne_nil _)
    | cons c0 cs0 =>
      have hd : isDigitChar c0 = true := by
        apply natChars_all_digits
        rw [hc]; exact List.mem_cons_self _ _
      obtain ⟨hnw2, hb1, hb2, hb3, hb4, hb5, hb6, hb7, hb8, hb9, hb10, hb11⟩ :=
        digit_head_facts c0 hd
      simp only [List.cons_append]
      rw [if_neg hb4, if_neg hb5, if_neg hb6, if_neg hb7, if_neg hb8,
        if_neg hb9, if_neg hb10, if_pos hd]
      rw [show (c0 :: (cs0 ++ rest) : List Char) = (c0 :: cs0) ++ rest from rfl,
        ← hc]
      rw [parseNat_natChars _ _ hrest]
      have : ((n.natAbs : Nat) : Int) = n := by omega
      simp [this]

/-- The parser recovers a string from its rendering. -/
theorem parseVal_dumps_str (g : Nat) (ws s rest : List Char) (hws : AllWs ws)
    (hlen : s.length < g) :
    parseVal (g + 1) (ws ++ dumpsV (JVal.jstr s) ++ rest) =
      some (JVal.jstr s, rest) := by
  have hskip : skipWs (ws ++ (dumpsV (JVal.jstr s) ++ rest)) =
      dumpsV (JVal.jstr s) ++ rest := by
    apply skipWs_append_all _ _ hws
    intro c t h
    obtain ⟨c0, cs0, he, hnw, hnb⟩ := dumpsV_shape (JVal.jstr s)
    rw [he] at h
    simp only [List.cons_append] at h
    obtain ⟨rfl, -⟩ := List.cons.inj h
    exact hnw
  rw [List.append_assoc]
  simp only [parseVal, hskip]
  rw [show dumpsV (JVal.jstr s) ++ rest =
    qMark :: (escapeStr s ++ (qMark :: rest)) from by
      simp [dumpsV, List.append_assoc]]
  split
  · rename_i heq
    cases heq
  · rename_i c2 rest2 heq
    obtain ⟨rfl, rfl⟩ := List.cons.inj heq
    rw [if_neg (show ¬qMark = 'n' from by decide),
      if_neg (show ¬qMark = 't' from by decide),
      if_neg (show ¬qMark = 'f' from by decide), if_pos rfl]
    rw [parseStrBody_escape s g rest hlen]
    rfl

/-- The parser recovers the empty array from its rendering. -/
theorem parseVal_dumps_arr_nil (g : Nat) (ws rest : List Char) (hws : AllWs ws) :
    parseVal (g + 1) (ws ++ dumpsV (JVal.jarr []) ++ rest) =
      some (JVal.jarr [], rest) := by
  have hskip : skipWs (ws ++ (dumpsV (JVal.jarr []) ++ rest)) =
      dumpsV (JVal.jarr []) ++ rest := by
    apply skipWs_append_all _ _ hws
    intro c t h
    obtain ⟨c0, cs0, he, hnw, hnb⟩ := dumpsV_shape (JVal.jarr [])
    rw [he] at h
    simp only [List.cons_append] at h
    obtain ⟨rfl, -⟩ := List.cons.inj h
    exact hnw
  rw [List.append_assoc]
  simp only [parseVal, hskip]
  simp [dumpsV, skipWs, List.dropWhile_cons,
    show ¬('[' : Char) = qMark from by decide,
    show isWsChar ']' = false from by decide]

/-- The parser recovers the empty object from its rendering. -/
theorem parseVal_dumps_obj_nil (g : Nat) (ws rest : List Char) (hws : AllWs ws) :
    parseVal (g + 1) (ws ++ dumpsV (JVal.jobj []) ++ rest) =
      some (JVal.jobj [], rest) := by
  have hskip : skipWs (ws ++ (dumpsV (JVal.jobj []) ++ rest)) =
      dumpsV (JVal.jobj []) ++ rest := by
    apply skipWs_append_all _ _ hws
    intro c t h
    obtain ⟨c0, cs0, he, hnw, hnb⟩ := dumpsV_shape (JVal.jobj [])
    rw [he] at h
    simp only [List.cons_append] at h
    obtain ⟨rfl, -⟩ := List.cons.inj h
    exact hnw
  rw [List.append_assoc]
  simp only [parseVal, hskip]
  rw [show dumpsV (JVal.jobj []) ++ rest = lCurly :: (rCurly :: rest) from rfl]
  split
  · rename_i heq
    cases heq
  · rename_i c2 rest2 heq
    obtain ⟨rfl, rfl⟩ := List.cons.inj heq
    rw [if_neg (show ¬lCurly = 'n' from by decide),
      if_neg (show ¬lCurly = 't' from by decide),
      if_neg (show ¬lCurly = 'f' from by decide),
      if_neg (show ¬lCurly = qMark from by decide),
      if_neg (show ¬lCurly = '[' from by decide), if_pos rfl]
    rw [show skipWs (rCurly :: rest) = rCurly :: rest from by
      simp [skipWs, List.dropWhile_cons,
        show isWsChar rCurly = false from by decide]]
    simp

/-- The parser recovers a non-empty array from its rendering, given that
the items parse. -/
theorem parseVal_dumps_arr_cons (g : Nat) (ws rest : List Char) (x : JVal)
    (xs : List JVal) (hws : AllWs ws)
    (hIH : parseItems g (dumpsV x ++ (dumpsItems xs ++ rest)) =
      some (x :: xs, rest)) :
    parseVal (g + 1) (ws ++ dumpsV (JVal.jarr (x :: xs)) ++ rest) =
      some (JVal.jarr (x :: xs), rest) := by
  have hskip : skipWs (ws ++ (dumpsV (JVal.jarr (x :: xs)) ++ rest)) =
      dumpsV (JVal.jarr (x :: xs)) ++ rest := by
    apply skipWs_append_all _ _ hws
    intro c t h
    rw [show dumpsV (JVal.jarr (x :: xs)) = '[' :: (dumpsV x ++ dumpsItems xs)
      from rfl] at h
    simp only [List.cons_append] at h
    obtain ⟨rfl, -⟩ := List.cons.inj h
    decide
  rw [List.append_assoc]
  simp only [parseVal, hskip]
  rw [show dumpsV (JVal.jarr (x :: xs)) ++ rest =
    '[' :: (dumpsV x ++ (dumpsItems xs ++ rest)) from by
      rw [show dumpsV (JVal.jarr (x :: xs)) =
        '[' :: (dumpsV x ++ dumpsItems xs) from rfl]
      simp [List.append_assoc]]
  split
  · rename_i heq
    cases heq
  · rename_i c2 rest2 heq
    obtain ⟨rfl, rfl⟩ := List.cons.inj heq
    rw [if_neg (show ¬('[' : Char) = 'n' from by decide),
      if_neg (show ¬('[' : Char) = 't' from by decide),
      if_neg (show ¬('[' : Char) = 'f' from by decide),
      if_neg (show ¬('[' : Char) = qMark from by decide), if_pos rfl]
    have hskip2 : skipWs (dumpsV x ++ (dumpsItems xs ++ rest)) =
        dumpsV x ++ (dumpsItems xs ++ rest) := by
      apply skipWs_append_all [] _ (by intro c hc; cases hc)
      intro c t h
      obtain ⟨c0, cs0, he, hnw, hnb⟩ := dumpsV_shape x
      have h2 : c0 :: (cs0 ++ (dumpsItems xs ++ rest)) = c :: t := by
        rw [← List.cons_append, ← he]
        exact h
      obtain ⟨rfl, -⟩ := List.cons.inj h2
      exact hnw
    rw [hskip2]
    obtain ⟨c0, cs0, he, hnw, hnb⟩ := dumpsV_shape x
    rw [he]
    simp only [List.cons_append]
    split
    · rename_i r heq2
      obtain ⟨rfl, -⟩ := List.cons.inj heq2
      exact absurd rfl hnb
    · rw [← List.cons_append, ← he, hIH]
      rfl

/-- The parser recovers a non-empty object from its rendering, given
that the members parse. -/
theorem parseVal_dumps_obj_cons (g : Nat) (ws rest : List Char)
    (kv : List Char × JVal) (kvs : List (List Char × JVal)) (hws : AllWs ws)
    (hIH : parseMembers g (dumpsMember kv ++ (dumpsMembers kvs ++ rest)) =
      some (kv :: kvs, rest)) :
    parseVal (g + 1) (ws ++ dumpsV (JVal.jobj (kv :: kvs)) ++ rest) =
      some (JVal.jobj (kv :: kvs), rest) := by
  obtain ⟨k, v0⟩ := kv
  have hmem : dumpsMember (k, v0) =
      qMark :: (escapeStr k ++ (qMark :: ':' :: ' ' :: dumpsV v0)) := rfl
  have hskip : skipWs (ws ++ (dumpsV (JVal.jobj ((k, v0) :: kvs)) ++ rest)) =
      dumpsV (JVal.jobj ((k, v0) :: kvs)) ++ rest := by
    apply skipWs_append_all _ _ hws
    intro c t h
    rw [show dumpsV (JVal.jobj ((k, v0) :: kvs)) =
      lCurly :: (dumpsMember (k, v0) ++ dumpsMembers kvs) from rfl] at h
    simp only [List.cons_append] at h
    obtain ⟨rfl, -⟩ := List.cons.inj h
    decide
  rw [List.append_assoc]
  simp only [parseVal, hskip]
  rw [show dumpsV (JVal.jobj ((k, v0) :: kvs)) ++ rest =
    lCurly :: (dumpsMember (k, v0) ++ (dumpsMembers kvs ++ rest)) from by
      rw [show dumpsV (JVal.jobj ((k, v0) :: kvs)) =
        lCurly :: (dumpsMember (k, v0) ++ dumpsMembers kvs) from rfl]
      simp [List.append_assoc]]
  split
  · rename_i heq
    cases heq
  · rename_i c2 rest2 heq
    obtain ⟨rfl, rfl⟩ := List.cons.inj heq
    rw [if_neg (show ¬lCurly = 'n' from by decide),
      if_neg (show ¬lCurly = 't' from by decide),
      if_neg (show ¬lCurly = 'f' from by decide),
      if_neg (show ¬lCurly = qMark from by decide),
      if_neg (show ¬lCurly = '[' from by decide), if_pos rfl]
    have hskip2 : skipWs (dumpsMember (k, v0) ++ (dumpsMembers kvs ++ rest)) =
        dumpsMember (k, v0) ++ (dumpsMembers kvs ++ rest) := by
      apply skipWs_append_all [] _ (by intro c hc; cases hc)
      intro c t h
      have h2 : qMark :: ((escapeStr k ++ (qMark :: ':' :: ' ' :: dumpsV v0)) ++
          (dumpsMembers kvs ++ rest)) = c :: t := by
        rw [← List.cons_append, ← hmem]
        exact h
      obtain ⟨rfl, -⟩ := List.cons.inj h2
      decide
    rw [hskip2, hmem]
    simp only [List.cons_append]
    split
    · rename_i heq2
      exact absurd heq2 (by decide)
    · rename_i heq2
      have harg : qMark :: ((escapeStr k ++ (qMark :: ':' :: ' ' :: dumpsV v0))
          ++ (dumpsMembers kvs ++ rest)) =
          dumpsMember (k, v0) ++ (dumpsMembers kvs ++ rest) := rfl
      rw [harg, hIH]
      rfl

/-- Items of a one-element tail: value then closing bracket. -/
theorem parseItems_dumps_last (g : Nat) (x : JVal) (rest : List Char)
    (hV : parseVal g (dumpsV x ++ (dumpsItems [] ++ rest)) =
      some (x, dumpsItems [] ++ rest)) :
    parseItems (g + 1) (dumpsV x ++ (dumpsItems [] ++ rest)) =
      some ([x], rest) := by
  simp only [parseItems]
  rw [hV, show (dumpsItems [] ++ rest : List Char) = ']' :: rest from rfl]
  rfl

/-- Items of a longer tail: value, separator, remaining items. -/
theorem parseItems_dumps_cons (g : Nat) (x y : JVal) (ys : List JVal)
    (rest : List Char)
    (hV : parseVal g (dumpsV x ++ (dumpsItems (y :: ys) ++ rest)) =
      some (x, dumpsItems (y :: ys) ++ rest))
    (hI : parseItems g (' ' :: (dumpsV y ++ (dumpsItems ys ++ rest))) =
      some (y :: ys, rest)) :
    parseItems (g + 1) (dumpsV x ++ (dumpsItems (y :: ys) ++ rest)) =
      some (x :: y :: ys, rest) := by
  simp only [parseItems]
  rw [hV]
  rw [show (dumpsItems (y :: ys) ++ rest : List Char) =
    ',' :: ' ' :: (dumpsV y ++ (dumpsItems ys ++ rest)) from by
      rw [show dumpsItems (y :: ys) =
        ',' :: ' ' :: (dumpsV y ++ dumpsItems ys) from rfl]
      simp [List.append_assoc]]
  show Option.map (fun p => (x :: p.1, p.2))
    (parseItems g (' ' :: (dumpsV y ++ (dumpsItems ys ++ rest)))) =
    some (x :: y :: ys, rest)
  rw [hI]
  rfl
/-- Members of a one-element tail: key, colon, value, closing bracket. -/
theorem parseMembers_dumps_last (g : Nat) (k : List Char) (v0 : JVal)
    (rest : List Char) (hk : k.length < g)
    (hV : parseVal g (' ' :: (dumpsV v0 ++ (dumpsMembers [] ++ rest))) =
      some (v0, dumpsMembers [] ++ rest)) :
    parseMembers (g + 1) (dumpsMember (k, v0) ++ (dumpsMembers [] ++ rest)) =
      some ([(k, v0)], rest) := by
  have hmem : dumpsMember (k, v0) ++ (dumpsMembers [] ++ rest) =
      qMark :: (escapeStr k ++ (qMark :: (':' :: ' ' ::
        (dumpsV v0 ++ (dumpsMembers [] ++ rest))))) := by
    rw [show dumpsMember (k, v0) =
      qMark :: (escapeStr k ++ (qMark :: ':' :: ' ' :: dumpsV v0)) from rfl]
    simp [List.append_assoc]
  simp only [parseMembers]
  rw [hmem]
  show (match parseStrBody g (escapeStr k ++ (qMark :: (':' :: ' ' ::
      (dumpsV v0 ++ (dumpsMembers [] ++ rest))))) with
    | none => none
    | some (k2, r2) =>
      match skipWs r2 with
      | ':' :: r3 =>
        (match parseVal g r3 with
         | none => none
         | some (v, r4) =>
           match skipWs r4 with
           | ',' :: r5 =>
             Option.map (fun p => ((k2, v) :: p.1, p.2)) (parseMembers g r5)
           | c2 :: r5 => if c2 = rCurly then some ([(k2, v)], r5) else none
           | [] => none)
      | _ => none) = some ([(k, v0)], rest)
  rw [parseStrBody_escape k g _ hk]
  show (match skipWs (':' :: ' ' :: (dumpsV v0 ++ (dumpsMembers [] ++ rest))) with
    | ':' :: r3 =>
      (match parseVal g r3 with
       | none => none
       | some (v, r4) =>
         match skipWs r4 with
         | ',' :: r5 =>
           Option.map (fun p => ((k, v) :: p.1, p.2)) (parseMembers g r5)
         | c2 :: r5 => if c2 = rCurly then some ([(k, v)], r5) else none
         | [] => none)
    | _ => none) = some ([(k, v0)], rest)
  rw [show skipWs (':' :: ' ' :: (dumpsV v0 ++ (dumpsMembers [] ++ rest))) =
    ':' :: ' ' :: (dumpsV v0 ++ (dumpsMembers [] ++ rest)) from by
    simp [skipWs, List.dropWhile_cons, show isWsChar ':' = false from by decide]]
  show (match parseVal g (' ' :: (dumpsV v0 ++ (dumpsMembers [] ++ rest))) with
    | none => none
    | some (v, r4) =>
      match skipWs r4 with
      | ',' :: r5 =>
        Option.map (fun p => ((k, v) :: p.1, p.2)) (parseMembers g r5)
      | c2 :: r5 => if c2 = rCurly then some ([(k, v)], r5) else none
      | [] => none) = some ([(k, v0)], rest)
  rw [hV]
  show (match skipWs (dumpsMembers [] ++ rest) with
    | ',' :: r5 =>
      Option.map (fun p => ((k, v0) :: p.1, p.2)) (parseMembers g r5)
    | c2 :: r5 => if c2 = rCurly then some ([(k, v0)], r5) else none
    | [] => none) = some ([(k, v0)], rest)
  rw [show (dumpsMembers [] ++ rest : List Char) = rCurly :: rest from rfl]
  rw [show skipWs (rCurly :: rest) = rCurly :: rest from by
    simp [skipWs, List.dropWhile_cons,
      show isWsChar rCurly = false from by decide]]
  rfl

/-- Members of a longer tail: key, colon, value, separator, remaining
members. -/
theorem parseMembers_dumps_cons (g : Nat) (k : List Char) (v0 : JVal)
    (kv2 : List Char × JVal) (t : List (List Char × JVal)) (rest : List Char)
    (hk : k.length < g)
    (hV : parseVal g (' ' :: (dumpsV v0 ++ (dumpsMembers (kv2 :: t) ++ rest))) =
      some (v0, dumpsMembers (kv2 :: t) ++ rest))
    (hM : parseMembers g (' ' :: (dumpsMember kv2 ++ (dumpsMembers t ++ rest))) =
      some (kv2 :: t, rest)) :
    parseMembers (g + 1)
      (dumpsMember (k, v0) ++ (dumpsMembers (kv2 :: t) ++ rest)) =
      some ((k, v0) :: kv2 :: t, rest) := by
  have hmem : dumpsMember (k, v0) ++ (dumpsMembers (kv2 :: t) ++ rest) =
      qMark :: (escapeStr k ++ (qMark :: (':' :: ' ' ::
        (dumpsV v0 ++ (dumpsMembers (kv2 :: t) ++ rest))))) := by
    rw [show dumpsMember (k, v0) =
      qMark :: (escapeStr k ++ (qMark :: ':' :: ' ' :: dumpsV v0)) from rfl]
    simp [List.append_assoc]
  simp only [parseMembers]
  rw [hmem]
  show (match parseStrBody g (escapeStr k ++ (qMark :: (':' :: ' ' ::
      (dumpsV v0 ++ (dumpsMembers (kv2 :: t) ++ rest))))) with
    | none => none
    | some (k2, r2) =>
      match skipWs r2 with
      | ':' :: r3 =>
        (match parseVal g r3 with
         | none => none
         | some (v, r4) =>
           match skipWs r4 with
           | ',' :: r5 =>
             Option.map (fun p => ((k2, v) :: p.1, p.2)) (parseMembers g r5)
           | c2 :: r5 => if c2 = rCurly then some ([(k2, v)], r5) else none
           | [] => none)
      | _ => none) = some ((k, v0) :: kv2 :: t, rest)
  rw [parseStrBody_escape k g _ hk]
  show (match skipWs (':' :: ' ' ::
      (dumpsV v0 ++ (dumpsMembers (kv2 :: t) ++ rest))) with
    | ':' :: r3 =>
      (match parseVal g r3 with
       | none => none
       | some (v, r4) =>
         match skipWs r4 with
         | ',' :: r5 =>
           Option.map (fun p => ((k, v) :: p.1, p.2)) (parseMembers g r5)
         | c2 :: r5 => if c2 = rCurly then some ([(k, v)], r5) else none
         | [] => none)
    | _ => none) = some ((k, v0) :: kv2 :: t, rest)
  rw [show skipWs (':' :: ' ' ::
    (dumpsV v0 ++ (dumpsMembers (kv2 :: t) ++ rest))) =
    ':' :: ' ' :: (dumpsV v0 ++ (dumpsMembers (kv2 :: t) ++ rest)) from by
    simp [skipWs, List.dropWhile_cons, show isWsChar ':' = false from by decide]]
  show (match parseVal g (' ' ::
      (dumpsV v0 ++ (dumpsMembers (kv2 :: t) ++ rest))) with
    | none => none
    | some (v, r4) =>
      match skipWs r4 with
      | ',' :: r5 =>
        Option.map (fun p => ((k, v) :: p.1, p.2)) (parseMembers g r5)
      | c2 :: r5 => if c2 = rCurly then some ([(k, v)], r5) else none
      | [] => none) = some ((k, v0) :: kv2 :: t, rest)
  rw [hV]
  show (match skipWs (dumpsMembers (kv2 :: t) ++ rest) with
    | ',' :: r5 =>
      Option.map (fun p => ((k, v0) :: p.1, p.2)) (parseMembers g r5)
    | c2 :: r5 => if c2 = rCurly then some ([(k, v0)], r5) else none
    | [] => none) = some ((k, v0) :: kv2 :: t, rest)
  rw [show (dumpsMembers (kv2 :: t) ++ rest : List Char) =
    ',' :: ' ' :: (dumpsMember kv2 ++ (dumpsMembers t ++ rest)) from by
      rw [show dumpsMembers (kv2 :: t) =
        ',' :: ' ' :: (dumpsMember kv2 ++ dumpsMembers t) from rfl]
      simp [List.append_assoc]]
  rw [show skipWs (',' :: ' ' :: (dumpsMember kv2 ++ (dumpsMembers t ++ rest))) =
    ',' :: ' ' :: (dumpsMember kv2 ++ (dumpsMembers t ++ rest)) from by
    simp [skipWs, List.dropWhile_cons, show isWsChar ',' = false from by decide]]
  show Option.map (fun p => ((k, v0) :: p.1, p.2))
    (parseMembers g (' ' :: (dumpsMember kv2 ++ (dumpsMembers t ++ rest)))) =
    some ((k, v0) :: kv2 :: t, rest)
  rw [hM]
  rfl

/-- Skipping whitespace ignores an all-whitespace prefix. -/
theorem skipWs_ws_append (ws cs : List Char) (hws : AllWs ws) :
    skipWs (ws ++ cs) = skipWs cs := by
  induction ws with
  | nil => rfl
  | cons w t ih =>
    have hw := hws w (List.mem_cons_self _ _)
    simp only [List.cons_append, skipWs, List.dropWhile_cons, hw, if_pos]
    exact ih fun a ha => hws a (List.mem_cons_of_mem _ ha)

/-- The value parser ignores a leading all-whitespace prefix. -/
theorem parseVal_ws (f : Nat) (ws cs : List Char) (hws : AllWs ws) :
    parseVal f (ws ++ cs) = parseVal f cs := by
  cases f with
  | zero => rfl
  | succ g =>
    simp only [parseVal]
    rw [skipWs_ws_append ws cs hws]

/-- The items parser ignores a leading all-whitespace prefix. -/
theorem parseItems_ws (f : Nat) (ws cs : List Char) (hws : AllWs ws) :
    parseItems f (ws ++ cs) = parseItems f cs := by
  cases f with
  | zero => rfl
  | succ g =>
    simp only [parseItems]
    rw [parseVal_ws g ws cs hws]

/-- The members parser ignores a leading all-whitespace prefix. -/
theorem parseMembers_ws (f : Nat) (ws cs : List Char) (hws : AllWs ws) :
    parseMembers f (ws ++ cs) = parseMembers f cs := by
  cases f with
  | zero => rfl
  | succ g =>
    simp only [parseMembers]
    rw [skipWs_ws_append ws cs hws]

/-- The empty prefix is whitespace. -/
theorem allWs_nil : AllWs [] := by
  intro c hc
  cases hc

/-- A single blank is whitespace. -/
theorem allWs_space : AllWs [' '] := by
  intro c hc
  cases hc with
  | head => decide
  | tail _ h => cases h

/-- Master round-trip lemma: with enough fuel, the parser inverts the
serializer on values, array tails and object tails, with arbitrary
leading whitespace and any following input that cannot extend a number
literal. -/
theorem parse_dumps : ∀ f : Nat,
    (∀ ws v rest, AllWs ws → GoodRest rest →
      2 * (dumpsV v).length + 1 ≤ f →
      parseVal f (ws ++ dumpsV v ++ rest) = some (v, rest)) ∧
    (∀ x xs rest, GoodRest rest →
      2 * ((dumpsV x).length + (dumpsItems xs).length) + 2 ≤ f →
      parseItems f (dumpsV x ++ (dumpsItems xs ++ rest)) = some (x :: xs, rest)) ∧
    (∀ kv kvs rest, GoodRest rest →
      2 * ((dumpsMember kv).length + (dumpsMembers kvs).length) + 2 ≤ f →
      parseMembers f (dumpsMember kv ++ (dumpsMembers kvs ++ rest)) =
        some (kv :: kvs, rest)) := by
  intro f
  induction f using Nat.strong_induction_on with
  | _ f IH =>
  cases f with
  | zero =>
    refine ⟨?_, ?_, ?_⟩
    · intro ws v rest _ _ hle
      omega
    · intro x xs rest _ hle
      omega
    · intro kv kvs rest _ hle
      omega
  | succ g =>
    have IHg := IH g (Nat.lt_succ_self g)
    refine ⟨?_, ?_, ?_⟩
    · -- values
      intro ws v rest hws hrest hle
      cases v with
      | jnull => exact parseVal_dumps_null g ws rest hws
      | jbool b => exact parseVal_dumps_bool g b ws rest hws
      | jnum n => exact parseVal_dumps_num g n ws rest hws hrest
      | jstr s =>
        apply parseVal_dumps_str g ws s rest hws
        have h1 : (dumpsV (JVal.jstr s)).length = (escapeStr s).length + 2 := by
          rw [show dumpsV (JVal.jstr s) =
            qMark :: (escapeStr s ++ [qMark]) from rfl]
          simp
        have h2 := escapeStr_len s
        omega
      | jarr xs =>
        cases xs with
        | nil => exact parseVal_dumps_arr_nil g ws rest hws
        | cons x t =>
          apply parseVal_dumps_arr_cons g ws rest x t hws
          apply IHg.2.1 x t rest hrest
          have h1 : (dumpsV (JVal.jarr (x :: t))).length =
              (dumpsV x).length + (dumpsItems t).length + 1 := by
            rw [show dumpsV (JVal.jarr (x :: t)) =
              '[' :: (dumpsV x ++ dumpsItems t) from rfl]
            simp
          omega
      | jobj kvs =>
        cases kvs with
        | nil => exact parseVal_dumps_obj_nil g ws rest hws
        | cons kv t =>
          apply parseVal_dumps_obj_cons g ws rest kv t hws
          apply IHg.2.2 kv t rest hrest
          have h1 : (dumpsV (JVal.jobj (kv :: t))).length =
              (dumpsMember kv).length + (dumpsMembers t).length + 1 := by
            rw [show dumpsV (JVal.jobj (kv :: t)) =
              lCurly :: (dumpsMember kv ++ dumpsMembers t) from rfl]
            simp
          omega
    · -- items
      intro x xs rest hrest hle
      cases xs with
      | nil =>
        apply parseItems_dumps_last g x rest
        have hV := IHg.1 [] x (dumpsItems [] ++ rest) allWs_nil
          (dumpsItems_goodrest [] rest)
          (by
            have h1 : (dumpsItems ([] : List JVal)).length = 1 := by
              rw [show dumpsItems ([] : List JVal) = [']'] from rfl]
              rfl
            omega)
        simpa using hV
      | cons y ys =>
        have hlen : (dumpsItems (y :: ys)).length =
            (dumpsV y).length + (dumpsItems ys).length + 2 := by
          rw [show dumpsItems (y :: ys) =
            ',' :: ' ' :: (dumpsV y ++ dumpsItems ys) from rfl]
          simp
        apply parseItems_dumps_cons g x y ys rest
        · have hV := IHg.1 [] x (dumpsItems (y :: ys) ++ rest) allWs_nil
            (dumpsItems_goodrest (y :: ys) rest) (by omega)
          simpa using hV
        · have hI := IHg.2.1 y ys rest hrest (by omega)
          rw [show (' ' :: (dumpsV y ++ (dumpsItems ys ++ rest)) : List Char) =
            [' '] ++ (dumpsV y ++ (dumpsItems ys ++ rest)) from rfl]
          rw [parseItems_ws g [' '] _ allWs_space]
          exact hI
    · -- members
      intro kv kvs rest hrest hle
      obtain ⟨k, v0⟩ := kv
      have hmemlen : (dumpsMember (k, v0)).length =
          (escapeStr k).length + (dumpsV v0).length + 4 := by
        rw [show dumpsMember (k, v0) =
          qMark :: (escapeStr k ++ (qMark :: ':' :: ' ' :: dumpsV v0)) from rfl]
        simp
        omega
      have hklen := escapeStr_len k
      cases kvs with
      | nil =>
        have hmslen : (dumpsMembers ([] : List (List Char × JVal))).length = 1 := by
          rw [show dumpsMembers ([] : List (List Char × JVal)) = [rCurly] from rfl]
          rfl
        apply parseMembers_dumps_last g k v0 rest (by omega)
        have hV := IHg.1 [' '] v0 (dumpsMembers [] ++ rest) allWs_space
          (dumpsMembers_goodrest [] rest) (by omega)
        simpa using hV
      | cons kv2 t =>
        have hmslen : (dumpsMembers (kv2 :: t)).length =
            (dumpsMember kv2).length + (dumpsMembers t).length + 2 := by
          rw [show dumpsMembers (kv2 :: t) =
            ',' :: ' ' :: (dumpsMember kv2 ++ dumpsMembers t) from rfl]
          simp
        apply parseMembers_dumps_cons g k v0 kv2 t rest (by omega)
        · have hV := IHg.1 [' '] v0 (dumpsMembers (kv2 :: t) ++ rest) allWs_space
            (dumpsMembers_goodrest (kv2 :: t) rest) (by omega)
          simpa using hV
        · have hM := IHg.2.2 kv2 t rest hrest (by omega)
          rw [show (' ' :: (dumpsMember kv2 ++ (dumpsMembers t ++ rest)) : List Char) =
            [' '] ++ (dumpsMember kv2 ++ (dumpsMembers t ++ rest)) from rfl]
          rw [parseMembers_ws g [' '] _ allWs_space]
          exact hM

/-- `json.loads` inverts `json.dumps` on every structured document. -/
theorem loads_dumps (v : JVal) : loads (dumps v) = some v := by
  have hV := (parse_dumps (2 * (dumpsV v).length + 1)).1 [] v [] allWs_nil
    trivial (Nat.le_refl _)
  simp only [List.nil_append, List.append_nil] at hV
  show (match parseVal (2 * (dumpsV v).length + 1) (dumpsV v) with
    | some (v2, rest) => if (skipWs rest).isEmpty then some v2 else none
    | none => none) = some v
  rw [hV]
  rfl

/-- `find?` skips a prefix on which the predicate is everywhere false. -/
theorem find?_append_right (p : Job → Bool) (s t : List Job)
    (h : ∀ j ∈ s, p j = false) : (s ++ t).find? p = t.find? p := by
  induction s with
  | nil => rfl
  | cons a as ih =>
    have ha := h a (List.mem_cons_self _ _)
    rw [List.cons_append, List.find?_cons_of_neg _ (by simp [ha])]
    exact ih fun j hj => h j (List.mem_cons_of_mem _ hj)

/-- The serializer never produces the empty string. -/
theorem dumps_isEmpty (v : JVal) : (dumps v).isEmpty = false := by
  by_cases hb : (dumps v).isEmpty
  · exfalso
    have h := (String.isEmpty_iff _).mp hb
    have h2 : dumpsV v = ([] : List Char) := congrArg String.data h
    have h3 := dumpsV_len v
    rw [h2] at h3
    exact absurd h3 (by decide)
  · simpa using hb

/-- C8.  For every structured payload `P` (an arbitrary nested document
of maps, lists, strings, numbers, booleans and nulls) and every type
string, enqueueing with a fresh job id and fetching the job straight
back round-trips the payload: the stored `json.dumps` text parses back
with `json.loads` to `P` itself. -/
theorem C8_payload_roundtrip (s : List Job) (jid : String) (now : Int)
    (ty : String) (P : JVal) (rb : Option String) (ma : Int)
    (hfresh : ∀ j ∈ s, j.id ≠ jid) :
    (get_job (enqueue_job s jid now ty P rb ma) jid).map JobView.payload =
      some (some P) := by
  unfold enqueue_job get_job
  rw [find?_append_right _ s _ (fun j hj => by simp [hfresh j hj])]
  rw [List.find?_cons_of_pos _ (by simp)]
  simp [dumps_isEmpty P, loads_dumps P]

/-- Witness for C8 at a concrete nested payload. -/
theorem C8_witness :
    (get_job (enqueue_job [] "j1" 0 "generate_amazon_content"
        (JVal.jobj [("m_number".toList, JVal.jstr "M123".toList),
          ("opts".toList, JVal.jarr [JVal.jnum 30, JVal.jnum (-2),
            JVal.jbool true, JVal.jnull])])
        (some "api") 3) "j1").map JobView.payload =
      some (some (JVal.jobj [("m_number".toList, JVal.jstr "M123".toList),
        ("opts".toList, JVal.jarr [JVal.jnum 30, JVal.jnum (-2),
          JVal.jbool true, JVal.jnull])])) :=
  C8_payload_roundtrip [] "j1" 0 "generate_amazon_content"
    (JVal.jobj [("m_number".toList, JVal.jstr "M123".toList),
      ("opts".toList, JVal.jarr [JVal.jnum 30, JVal.jnum (-2),
        JVal.jbool true, JVal.jnull])])
    (some "api") 3 (fun j hj => absurd hj (List.not_mem_nil j))
